import Mathlib

/-!
# Verification of `git-spell-check.py`

A shallow embedding of the core logic of `git-spell-check.py`:
the unified-diff parser (`parse_diff_content`), the word/line correlation
logic (`run_spell_checker`), the output renderers
(`emit_github_annotations`, `emit_console_output`) and the orchestration
in `main`, together with theorems settling the specification claims.

Modelling conventions:
* Python strings are Lean `String`s; the character-level operations
  (`str.split`, `str.splitlines`, `str.strip`, slicing, `startswith`)
  are re-implemented faithfully below on `List Char`.
* Python whitespace and alphabetic character classes are modelled at the
  ASCII level (`pyIsSpace`, `pyIsAlpha`); the exotic Unicode members of
  those classes are irrelevant to the inputs the claims quantify over.
* Python `dict` (insertion ordered) is an association list
  `List (String × List (Int × String))`; `set` objects, used only for
  membership tests, are plain lists.
* Python `int()` applied to the comma-split hunk token is `pyInt`
  (optional sign, decimal digits with single interior underscores);
  its `ValueError` is the `none` case.
* The external collaborators (git invocations, the aspell subprocess,
  the filesystem) are oracle fields of `MainArgs`; everything computed
  from their outputs is real translated code.
* Debug tracing (`is_debug` prints) is not modelled: it is logging,
  not part of any specified output contract.
-/

namespace GitSpellCheck

/-- ASCII-level model of Python's `str.isspace` / default `str.split`
separator class: tab, LF, VT, FF, CR, FS, GS, RS, US, space. -/
def pyIsSpace (c : Char) : Bool :=
  c.toNat == 9 || c.toNat == 10 || c.toNat == 11 || c.toNat == 12 ||
  c.toNat == 13 || c.toNat == 28 || c.toNat == 29 || c.toNat == 30 ||
  c.toNat == 31 || c.toNat == 32

/-- The line-boundary characters recognised by Python's `str.splitlines`:
LF, CR, VT, FF, FS, GS, RS, NEL, LINE SEPARATOR, PARAGRAPH SEPARATOR. -/
def isLineBoundary (c : Char) : Bool :=
  c.toNat == 10 || c.toNat == 13 || c.toNat == 11 || c.toNat == 12 ||
  c.toNat == 28 || c.toNat == 29 || c.toNat == 30 || c.toNat == 133 ||
  c.toNat == 8232 || c.toNat == 8233

/-- ASCII-level model of Python's `str.isalpha` (used through
`filter(str.isalpha, word)`). -/
def pyIsAlpha (c : Char) : Bool :=
  c.isAlpha

/-- Python `s.startswith(pre)`. -/
def pyStartswith (s pre : String) : Bool :=
  pre.toList.isPrefixOf s.toList

/-- Strip `pyIsSpace` characters from the front of a character list
(the worker of Python `str.lstrip` / `str.strip`). -/
def lstripChars : List Char → List Char
  | [] => []
  | c :: rest => if pyIsSpace c then lstripChars rest else c :: rest

/-- Python `s.lstrip()`. -/
def pyLStrip (s : String) : String :=
  (lstripChars s.toList).asString

/-- Python `s.strip()`: whitespace removed from both ends. -/
def pyStrip (s : String) : String :=
  ((lstripChars (lstripChars s.toList).reverse).reverse).asString

/-- Worker for Python `s.split()` (split on whitespace runs, dropping
empty tokens).  `acc` holds the current token reversed. -/
def pySplitAux : List Char → List Char → List String
  | acc, [] => if acc.isEmpty then [] else [acc.reverse.asString]
  | acc, c :: rest =>
    if pyIsSpace c then
      if acc.isEmpty then pySplitAux [] rest
      else acc.reverse.asString :: pySplitAux [] rest
    else pySplitAux (c :: acc) rest

/-- Python `s.split()` with no separator argument. -/
def pySplit (s : String) : List String :=
  pySplitAux [] s.toList

/-- Worker for Python `s.splitlines()`.  `acc` holds the current line
reversed; a `"\r\n"` pair counts as a single boundary; a trailing
boundary does not open a final empty line. -/
def splitlinesAux (acc : List Char) : List Char → List String
  | [] => [acc.reverse.asString]
  | '\r' :: '\n' :: rest2 =>
    acc.reverse.asString :: (if rest2.isEmpty then [] else splitlinesAux [] rest2)
  | c :: rest =>
    if isLineBoundary c then
      acc.reverse.asString :: (if rest.isEmpty then [] else splitlinesAux [] rest)
    else splitlinesAux (c :: acc) rest

/-- Python `s.splitlines()` (no `keepends`). -/
def pySplitlines (s : String) : List String :=
  if s.toList.isEmpty then [] else splitlinesAux [] s.toList

/-- Join a list of strings with a separator: `joinWith "\n" ls` is
Python `"\n".join(ls)`; also used to build concrete diff texts. -/
def joinWith (sep : String) : List String → String
  | [] => ""
  | [p] => p
  | p :: q :: rest => p ++ sep ++ joinWith sep (q :: rest)

/-- Number a list of lines consecutively starting from `n`:
`numberFrom n [a, b] = [(n, a), (n+1, b)]`. -/
def numberFrom (n : Int) : List String → List (Int × String)
  | [] => []
  | t :: rest => (n, t) :: numberFrom (n + 1) rest

/-! ## Python `int()` on whitespace-free strings

The only strings `parse_diff_content` passes to `int()` are slices of
whitespace-separated tokens, so surrounding whitespace cannot occur.
`int()` accepts an optional single sign followed by decimal digits with
single interior underscores. -/

/-- ASCII decimal digit (Python `int()` also accepts the other Unicode
decimal digits; they cannot occur in the numerals the claims build). -/
def isDigitCh (c : Char) : Bool :=
  48 ≤ c.toNat && c.toNat ≤ 57

/-- Digits continued, allowing a single `'_'` between digits. -/
def validDigitsTail : List Char → Bool
  | [] => true
  | c :: rest =>
    if c = '_' then
      match rest with
      | [] => false
      | d :: rest2 => isDigitCh d && validDigitsTail rest2
    else isDigitCh c && validDigitsTail rest

/-- A non-empty digit group: leading digit, then `validDigitsTail`. -/
def validDigitsCore : List Char → Bool
  | [] => false
  | c :: rest => isDigitCh c && validDigitsTail rest

/-- Decimal value of a digit/underscore list (underscores skipped). -/
def digitsNat (cs : List Char) : Nat :=
  (cs.filter (fun c => c ≠ '_')).foldl (fun a c => 10 * a + (c.toNat - 48)) 0

/-- Model of Python `int(s)` for whitespace-free `s`: `none` is the
`ValueError` case. -/
def pyInt (s : String) : Option Int :=
  match s.toList with
  | [] => none
  | c :: rest =>
    if c = '+' then
      if validDigitsCore rest then some (digitsNat rest) else none
    else if c = '-' then
      if validDigitsCore rest then some (-(digitsNat rest : Int)) else none
    else
      if validDigitsCore (c :: rest) then some (digitsNat (c :: rest)) else none

/-! ## The unified-diff parser (`parse_diff_content`) -/

/-- The mapping built by the parser: an insertion-ordered dictionary
from file path to the ordered list of `(line_number, text)` pairs. -/
abbrev FileChanges := List (String × List (Int × String))

/-- Python `file_changes.setdefault(f, []).append(e)`: append `e` to `f`'s
list, creating the key at the end of the dictionary if absent. -/
def addEntry (changes : FileChanges) (f : String) (e : Int × String) : FileChanges :=
  match changes with
  | [] => [(f, [e])]
  | (g, es) :: rest =>
    if g = f then (g, es ++ [e]) :: rest else (g, es) :: addEntry rest f e

/-- Python `file_changes.get(f)` as an `Option`. -/
def lookupFile (changes : FileChanges) (f : String) : Option (List (Int × String)) :=
  match changes with
  | [] => none
  | (g, es) :: rest => if g = f then some es else lookupFile rest f

/-- Iterated `addEntry`: record consecutive lines `ts` for file `f`
with numbers `n, n+1, ...` (the bookkeeping a run of `+` lines after a
hunk header performs). -/
def addEntriesFrom (changes : FileChanges) (f : String) (n : Int) : List String → FileChanges
  | [] => changes
  | t :: rest => addEntriesFrom (addEntry changes f (n, t)) f (n + 1) rest

/-- The loop state of `parse_diff_content`. -/
structure DiffState where
  file_changes : FileChanges
  current_file : Option String
  current_line : Option Int
deriving DecidableEq, Repr

/-- The initial state: empty dictionary, both state variables unset. -/
def initState : DiffState := ⟨[], none, none⟩

/-- Python `line[4:]`, with the conventional `b/` target prefix stripped:
the processing a `+++` line applies before assigning `current_file`. -/
def normFile (line : String) : String :=
  let f := (line.toList.drop 4).asString
  if pyStartswith f "b/" then (f.toList.drop 2).asString else f

/-- Python `next((m for m in line.split() if m.startswith('+')), None)`. -/
def hunkToken (line : String) : Option String :=
  (pySplit line).find? (fun m => pyStartswith m "+")

/-- Python `match.split(',')[0][1:]`: the text before any comma in the token,
without its leading character. -/
def hunkNumStr (tok : String) : String :=
  ((tok.toList.takeWhile (fun c => c ≠ ',')).drop 1).asString

/-- Python `int(match.split(',')[0][1:])` as an `Option`. -/
def parseHunkStart (tok : String) : Option Int :=
  pyInt (hunkNumStr tok)

/-- The start number a `@@` line yields, `none` when the token is
absent or its integer parse fails. -/
def hunkStartOf (line : String) : Option Int :=
  match hunkToken line with
  | none => none
  | some tok => parseHunkStart tok

/-- A line beginning `@@` whose new-file start number parses: the only
kind of line that can (re)arm `current_line`. -/
def isValidHunkHeader (line : String) : Bool :=
  pyStartswith line "@@" && (hunkStartOf line).isSome

/-- Freshness of a hunk header with respect to the current parse
state: when the line's start number parses to `n`, every entry already
recorded for the file currently being processed lies below `n`.  Diffs
produced by a version-control tool satisfy this at every header. -/
def headerFreshB (s : DiffState) (l : String) : Bool :=
  match hunkStartOf l with
  | none => true
  | some n =>
    match s.current_file with
    | none => true
    | some f =>
      match lookupFile s.file_changes f with
      | none => true
      | some es => es.all (fun e => e.1 < n)

/-- The inductive invariant for the monotonicity claim: `seen` is the
set of file names introduced by `+++` lines so far; recorded lists are
strictly increasing; and the armed counter dominates the current
file's recorded entries. -/
def ParseInv (seen : List String) (s : DiffState) : Prop :=
  (∀ f, (lookupFile s.file_changes f).isSome → f ∈ seen) ∧
  (∀ f es, lookupFile s.file_changes f = some es →
    List.Pairwise (fun p q => p.1 < q.1) es) ∧
  (∀ f, s.current_file = some f → f ∈ seen) ∧
  (∀ f es n, s.current_file = some f → s.current_line = some n →
    lookupFile s.file_changes f = some es → ∀ e ∈ es, e.1 < n)

/-- One iteration of the `for line in diff_text.splitlines()` loop of
`parse_diff_content`. -/
def parseStep (s : DiffState) (line : String) : DiffState :=
  if pyStartswith line "+++" then
    { s with current_file := some (normFile line) }
  else if pyStartswith line "@@" then
    match hunkToken line with
    | none => s
    | some tok =>
      match parseHunkStart tok with
      | some n => { s with current_line := some n }
      | none => { s with current_line := none }
  else if pyStartswith line "+" && !(pyStartswith line "+++") then
    match s.current_file, s.current_line with
    | some f, some n =>
      if f ≠ "" then
        { s with
          file_changes := addEntry s.file_changes f (n, (line.toList.drop 1).asString),
          current_line := some (n + 1) }
      else s
    | _, _ => s
  else s

/-- The parser loop over a list of lines. -/
def parseFold (s : DiffState) (lines : List String) : DiffState :=
  lines.foldl parseStep s

/-- The function `parse_diff_content(diff_text)`. -/
def parse_diff_content (diff_text : String) : FileChanges :=
  (parseFold initState (pySplitlines diff_text)).file_changes

/-- A non-empty string of ASCII decimal digits (a numeral). -/
def DigitStr (s : String) : Prop :=
  s ≠ "" ∧ ∀ c ∈ s.toList, isDigitCh c = true

instance (s : String) : Decidable (DigitStr s) :=
  inferInstanceAs (Decidable (And _ _))

/-- A hunk header of the form `@@ -a,b +c,d @@`, with the four numbers
given as numerals. -/
def stdHunkHeader (sa sb sc sd : String) : String :=
  joinWith " " ["@@", "-" ++ sa ++ "," ++ sb, "+" ++ sc ++ "," ++ sd, "@@"]

/-- The single-hunk diff of claim C1: a `+++ b/F` new-file header, one
`@@ -a,b +c,d @@` hunk header, then one `+` line per content string. -/
def singleHunkDiff (F sa sb sc sd : String) (contents : List String) : String :=
  joinWith "\n"
    (("+++ b/" ++ F) :: stdHunkHeader sa sb sc sd :: contents.map (fun t => "+" ++ t))

/-! ### Exception-explicit variant (for the totality claim)

`int()` is the only operation in `parse_diff_content` that can raise;
`parseStepE` models the exception flow explicitly: `pyIntE` raises
`ValueError` exactly when `pyInt` is `none`, and the surrounding
`try/except ValueError` catches it.  Every other construct is total. -/

/-- The one exception type the parser can encounter. -/
inductive PyErr where
  | valueError : String → PyErr
deriving DecidableEq, Repr

/-- Python `int(s)` with its `ValueError` made explicit. -/
def pyIntE (s : String) : Except PyErr Int :=
  match pyInt s with
  | some n => Except.ok n
  | none => Except.error (PyErr.valueError s)

/-- Variant of `parseStep` with explicit exception propagation: the `try/except
ValueError` around `int()` maps the error case to unsetting
`current_line`. -/
def parseStepE (s : DiffState) (line : String) : Except PyErr DiffState :=
  if pyStartswith line "+++" then
    Except.ok { s with current_file := some (normFile line) }
  else if pyStartswith line "@@" then
    match hunkToken line with
    | none => Except.ok s
    | some tok =>
      match pyIntE (hunkNumStr tok) with
      | Except.ok n => Except.ok { s with current_line := some n }
      | Except.error (PyErr.valueError _) => Except.ok { s with current_line := none }
  else if pyStartswith line "+" && !(pyStartswith line "+++") then
    Except.ok (match s.current_file, s.current_line with
    | some f, some n =>
      if f ≠ "" then
        { s with
          file_changes := addEntry s.file_changes f (n, (line.toList.drop 1).asString),
          current_line := some (n + 1) }
      else s
    | _, _ => s)
  else Except.ok s

/-- Variant of `parse_diff_content` with explicit exception propagation. -/
def parse_diff_contentE (diff_text : String) : Except PyErr FileChanges :=
  ((pySplitlines diff_text).foldlM parseStepE initState).map DiffState.file_changes

/-! ## `run_spell_checker`: correlating flagged words with lines

The external process is an oracle: `checkerOut` is the raw standard
output it wrote.  Everything after `out.strip().splitlines()` is real
translated code.  The nested `for` loops appending to `annotations`
become `flatMap`/`filterMap`, which produce entries in the same
left-to-right order. -/

/-- Python `''.join(filter(str.isalpha, word))`. -/
def cleanWord (word : String) : String :=
  (word.toList.filter pyIsAlpha).asString

/-- The annotation-building loop of `run_spell_checker`, given the raw
standard output `checkerOut` of the external checker process.
`dictionary_words` is the allow-list (a set used only for membership,
so a list here); the `if dictionary_words and ...` truthiness test of
the Python code is the `dictionary_words ≠ []` conjunct. -/
def run_spell_checker (lines : List (Int × String)) (checkerOut : String)
    (dictionary_words : List String) : List (Int × String × String) :=
  let misspelled := pySplitlines (pyStrip checkerOut)
  lines.flatMap (fun p =>
    (pySplit p.2).filterMap (fun word =>
      let clean := cleanWord word
      if clean ≠ "" ∧ clean ∈ misspelled then
        if dictionary_words ≠ [] ∧ clean ∈ dictionary_words then none
        else some (p.1, clean, pyStrip p.2)
      else none))

/-- Modelled from the spec's words (§4.3), for comparison with
`run_spell_checker`: split each line on whitespace, strip
non-alphabetic characters, and keep a token iff the candidate is
non-empty, present in the flagged set and absent from the allow-list;
same-line occurrences give separate entries in token order. -/
def specTokenAnnots (lines : List (Int × String)) (flagged : List String)
    (allow : List String) : List (Int × String × String) :=
  lines.flatMap (fun p =>
    (pySplit p.2).filterMap (fun word =>
      let clean := cleanWord word
      if clean ≠ "" ∧ clean ∈ flagged ∧ clean ∉ allow then
        some (p.1, clean, pyStrip p.2)
      else none))

/-! ## Output rendering -/

/-- The CI-annotation line `emit_github_annotations` prints for one
flagged word. -/
def githubLine (file : String) (a : Int × String × String) : String :=
  "::error file=" ++ file ++ ",line=" ++ toString a.1 ++
    "::Possible typo: '" ++ a.2.1 ++ "' in line: " ++ a.2.2

/-- The console line `emit_console_output` prints for one flagged
word. -/
def consoleLine (file : String) (a : Int × String × String) : String :=
  file ++ ":" ++ toString a.1 ++ ": typo: '" ++ a.2.1 ++ "' in: " ++ a.2.2

/-- The function `emit_github_annotations(file, annotations)`: the lines it
prints, one iteration of its `for` loop per entry. -/
def emit_github_annotations (file : String) : List (Int × String × String) → List String
  | [] => []
  | a :: rest => githubLine file a :: emit_github_annotations file rest

/-- The function `emit_console_output(file, annotations)`: the lines it
prints. -/
def emit_console_output (file : String) : List (Int × String × String) → List String
  | [] => []
  | a :: rest => consoleLine file a :: emit_console_output file rest

/-- The rendering-mode selection in `main`'s loop:
`if args.console_output: emit_console_output(...) else:
emit_github_annotations(...)`. -/
def renderFileFindings (console : Bool) (file : String)
    (anns : List (Int × String × String)) : List String :=
  if console then emit_console_output file anns else emit_github_annotations file anns

/-! ## `bytes(s, "utf-8").decode("unicode_escape")`

The input string is encoded to UTF-8 bytes and those bytes are decoded
with the `unicode_escape` codec: a plain byte becomes the Latin-1
character of its value, and a backslash starts an escape sequence.
`Except.error` models the `UnicodeDecodeError`/`ValueError` the codec
raises (trailing backslash, malformed `\x`/`\u`/`\U`).  Two Python
features are deliberately not modelled, and are modelled as errors
here: `\N{NAME}` lookups (they need the Unicode name database) and
`\u` escapes denoting lone surrogates (not representable in `Char`). -/

/-- UTF-8 encoding of one character, as byte values. -/
def utf8Bytes (c : Char) : List Nat :=
  let n := c.toNat
  if n < 128 then [n]
  else if n < 2048 then [192 + n / 64, 128 + n % 64]
  else if n < 65536 then [224 + n / 4096, 128 + (n / 64) % 64, 128 + n % 64]
  else [240 + n / 262144, 128 + (n / 4096) % 64, 128 + (n / 64) % 64, 128 + n % 64]

/-- Value of a hexadecimal digit byte. -/
def hexValB (b : Nat) : Option Nat :=
  if 48 ≤ b ∧ b ≤ 57 then some (b - 48)
  else if 97 ≤ b ∧ b ≤ 102 then some (b - 87)
  else if 65 ≤ b ∧ b ≤ 70 then some (b - 55)
  else none

/-- Whether a byte is an octal digit. -/
def isOctB (b : Nat) : Bool :=
  48 ≤ b && b ≤ 55

/-- Value of a two-hex-digit escape argument. -/
def hex2 (a b : Nat) : Option Nat :=
  match hexValB a, hexValB b with
  | some x, some y => some (16 * x + y)
  | _, _ => none

/-- Value of a four-hex-digit escape argument. -/
def hex4 (a b c d : Nat) : Option Nat :=
  match hex2 a b, hex2 c d with
  | some x, some y => some (256 * x + y)
  | _, _ => none

/-- Value of an eight-hex-digit escape argument. -/
def hex8 (a b c d e f g h : Nat) : Option Nat :=
  match hex4 a b c d, hex4 e f g h with
  | some x, some y => some (65536 * x + y)
  | _, _ => none

/-- Decode one escape sequence: given the bytes after a backslash,
return the characters it produces (empty for a backslash-newline line
continuation, two for an unrecognized escape, which Python keeps
verbatim) and the remaining bytes, or the decode error.  The length
certificate on the remainder drives the termination of
`unescapeBytes`. -/
def escStep : (bs : List Nat) →
    Except String (List Char × { rem : List Nat // rem.length ≤ bs.length })
  | [] => Except.error "backslash at end of string"
  | e :: r2 =>
    if e = 10 then Except.ok ([], ⟨r2, by simp⟩)
    else if e = 92 then Except.ok (['\\'], ⟨r2, by simp⟩)
    else if e = 39 then Except.ok (['\''], ⟨r2, by simp⟩)
    else if e = 34 then Except.ok (['"'], ⟨r2, by simp⟩)
    else if e = 97 then Except.ok ([Char.ofNat 7], ⟨r2, by simp⟩)
    else if e = 98 then Except.ok ([Char.ofNat 8], ⟨r2, by simp⟩)
    else if e = 102 then Except.ok ([Char.ofNat 12], ⟨r2, by simp⟩)
    else if e = 110 then Except.ok ([Char.ofNat 10], ⟨r2, by simp⟩)
    else if e = 114 then Except.ok ([Char.ofNat 13], ⟨r2, by simp⟩)
    else if e = 116 then Except.ok ([Char.ofNat 9], ⟨r2, by simp⟩)
    else if e = 118 then Except.ok ([Char.ofNat 11], ⟨r2, by simp⟩)
    else if isOctB e then
      match r2 with
      | d2 :: d3 :: r4 =>
        if isOctB d2 then
          if isOctB d3 then
            Except.ok ([Char.ofNat ((e - 48) * 64 + (d2 - 48) * 8 + (d3 - 48))],
              ⟨r4, by simp only [List.length_cons]; omega⟩)
          else
            Except.ok ([Char.ofNat ((e - 48) * 8 + (d2 - 48))],
              ⟨d3 :: r4, by simp only [List.length_cons]; omega⟩)
        else
          Except.ok ([Char.ofNat (e - 48)], ⟨d2 :: d3 :: r4, by simp⟩)
      | [d2] =>
        if isOctB d2 then
          Except.ok ([Char.ofNat ((e - 48) * 8 + (d2 - 48))], ⟨[], by simp⟩)
        else Except.ok ([Char.ofNat (e - 48)], ⟨[d2], by simp⟩)
      | [] => Except.ok ([Char.ofNat (e - 48)], ⟨[], by simp⟩)
    else if e = 120 then
      match r2 with
      | h1 :: h2 :: r3 =>
        match hex2 h1 h2 with
        | some v =>
          Except.ok ([Char.ofNat v], ⟨r3, by simp only [List.length_cons]; omega⟩)
        | none => Except.error "invalid x escape"
      | _ => Except.error "invalid x escape"
    else if e = 117 then
      match r2 with
      | h1 :: h2 :: h3 :: h4 :: r3 =>
        match hex4 h1 h2 h3 h4 with
        | some v =>
          if v.isValidChar then
            Except.ok ([Char.ofNat v], ⟨r3, by simp only [List.length_cons]; omega⟩)
          else Except.error "surrogate not modelled"
        | none => Except.error "invalid u escape"
      | _ => Except.error "invalid u escape"
    else if e = 85 then
      match r2 with
      | h1 :: h2 :: h3 :: h4 :: h5 :: h6 :: h7 :: h8 :: r3 =>
        match hex8 h1 h2 h3 h4 h5 h6 h7 h8 with
        | some v =>
          if v.isValidChar then
            Except.ok ([Char.ofNat v], ⟨r3, by simp only [List.length_cons]; omega⟩)
          else Except.error "illegal Unicode character"
        | none => Except.error "invalid U escape"
      | _ => Except.error "invalid U escape"
    else if e = 78 then Except.error "named escape not modelled"
    else Except.ok (['\\', Char.ofNat e], ⟨r2, by simp⟩)

/-- The `unicode_escape` decoding loop over bytes: plain bytes become
their Latin-1 characters, a backslash dispatches to `escStep`. -/
def unescapeBytes : List Nat → Except String (List Char)
  | [] => Except.ok []
  | b :: rest =>
    if b = 92 then
      match escStep rest with
      | Except.error e => Except.error e
      | Except.ok (out, rem) => (unescapeBytes rem.val).map (fun cs => out ++ cs)
    else (unescapeBytes rest).map (fun cs => Char.ofNat b :: cs)
termination_by bs => bs.length
decreasing_by
  · simp only [List.length_cons]
    exact Nat.lt_succ_of_le rem.property
  · simp only [List.length_cons]
    omega

/-- Python `bytes(s, "utf-8").decode("unicode_escape")`. -/
def pyUnicodeEscape (s : String) : Except String String :=
  (unescapeBytes (s.toList.flatMap utf8Bytes)).map List.asString

/-! ## Orchestration (`main`)

Argument parsing and the external collaborators are modelled as fields
of `MainArgs`: the git enumeration (`gitFiles`, `gitDiff`), the
filesystem lookup of `--diff-file` (path paired with `none` when
`os.path.isfile` is false, otherwise the file's text), and the spell
checker subprocess (`checker`, mapping the standard-input payload to
the standard output it writes).  `mainRun` returns `Except.error` when
an unhandled Python exception would propagate out of `main` (the only
modelled source is the `unicode_escape` decode). -/

/-- The configuration and collaborator oracles of one `main` run. -/
structure MainArgs where
  input_string : Option String
  diff_file : Option (String × Option String)
  console_output : Bool
  dictionary : String
  gitFiles : List String
  gitDiff : String → String
  checker : String → String

/-- What a run produces: the process exit status, the lines printed to
standard output, and (as observable instrumentation for the exit-code
claims) the per-file annotation lists the loop computed. -/
structure MainOutcome where
  exitCode : Nat
  output : List String
  findings : List (String × List (Int × String × String))
deriving DecidableEq, Repr

/-- Python truthiness of an optional string argument: present and
non-empty. -/
def truthyStr (o : Option String) : Bool :=
  match o with
  | none => false
  | some s => s ≠ ""

/-- Python `set(args.dictionary.split()) if args.dictionary else set()`. -/
def dictWords (a : MainArgs) : List String :=
  if a.dictionary ≠ "" then pySplit a.dictionary else []

/-- The function `get_diff_lines(file, base_branch)`: parse the git diff for one
file (the subprocess output is the `gitDiff` oracle) and take that
file's entries, defaulting to the empty list. -/
def get_diff_lines (a : MainArgs) (file : String) : List (Int × String) :=
  (lookupFile (parse_diff_content (a.gitDiff file)) file).getD []

/-- The `for file, lines in file_changes.items()` loop of `main`:
run the checker on each file's lines (the payload is the
newline-joined texts), emit the per-file lines in the selected mode,
and exit 1 when any file had findings, else print the confirmation. -/
def checkPhase (a : MainArgs) (file_changes : List (String × List (Int × String))) :
    MainOutcome :=
  let perFile := file_changes.map (fun fc =>
    (fc.1, run_spell_checker fc.2 (a.checker (joinWith "\n" (fc.2.map (fun p => p.2))))
      (dictWords a)))
  let out := perFile.flatMap (fun fc =>
    if fc.2 ≠ [] then renderFileFindings a.console_output fc.1 fc.2 else [])
  if perFile.any (fun fc => fc.2 ≠ []) then
    { exitCode := 1, output := out, findings := perFile }
  else
    { exitCode := 0, output := out ++ ["✅ No typos found."], findings := perFile }

/-- The `file_changes` dictionary `main` builds in `--input-string`
mode from the decoded string. -/
def inputStringChanges (decoded : String) : List (String × List (Int × String)) :=
  if pyStartswith (pyLStrip decoded) "diff" then parse_diff_content decoded
  else [("<stdin>", numberFrom 1 (pySplitlines decoded))]

/-- The final `else` of `main`'s source selection: enumerate changed
files via git, short-circuiting when none remain. -/
def gitRun (a : MainArgs) : Except String MainOutcome :=
  if a.gitFiles = [] then
    Except.ok { exitCode := 0, output := ["✅ No files to check."], findings := [] }
  else
    Except.ok (checkPhase a (a.gitFiles.map (fun f => (f, get_diff_lines a f))))

/-- The function `main()`: source selection, parsing, checking and exit
status.  Both source flags are tested by Python truthiness:
`if args.input_string:` and `elif args.diff_file:` are falsy for the
empty string as well as for an absent flag, so an empty `--diff-file`
value falls through to the git path. -/
def mainRun (a : MainArgs) : Except String MainOutcome :=
  if truthyStr a.input_string then
    match pyUnicodeEscape (a.input_string.getD "") with
    | Except.error e => Except.error e
    | Except.ok decoded => Except.ok (checkPhase a (inputStringChanges decoded))
  else
    match a.diff_file with
    | some (path, existing) =>
      if path ≠ "" then
        match existing with
        | none =>
          Except.ok { exitCode := 1, output := ["❌ Diff file not found: " ++ path],
                      findings := [] }
        | some diff_text =>
          Except.ok (checkPhase a (parse_diff_content diff_text))
      else gitRun a
    | none => gitRun a

/-- Total number of annotations a run produced. -/
def totalFindings (findings : List (String × List (Int × String × String))) : Nat :=
  (findings.map (fun fc => fc.2.length)).sum

/-- Whether the `--diff-file` source is actually selected (a truthy,
i.e. non-empty, path) and names a path that does not exist. -/
def diffFileMissing (a : MainArgs) : Bool :=
  match a.diff_file with
  | some (p, none) => p ≠ ""
  | _ => false

/-- A run with `--diff-file ""`: the empty path names no existing file
(`os.path.isfile("")` is always false), yet the empty string is falsy
in `elif args.diff_file:`, so `main` falls through to the git
enumeration, which here reports no files to check. -/
def cexArgs6 : MainArgs :=
  { input_string := none
    diff_file := some ("", none)
    console_output := false
    dictionary := ""
    gitFiles := []
    gitDiff := fun _ => ""
    checker := fun _ => "" }

/-- A run invoked with `--input-string ""` (empty value) while the git
collaborators report one changed file whose added line the checker
flags. -/
def cexArgs7 : MainArgs :=
  { input_string := some ""
    diff_file := none
    console_output := false
    dictionary := ""
    gitFiles := ["f.md"]
    gitDiff := fun _ => "+++ b/f.md\n@@ -0,0 +1 @@\n+badwerd"
    checker := fun _ => "badwerd" }

/-- A run with no input sources and no changed files. -/
def instArgs6 : MainArgs :=
  { input_string := none
    diff_file := none
    console_output := false
    dictionary := ""
    gitFiles := []
    gitDiff := fun _ => ""
    checker := fun _ => "" }

/-- A run whose `--input-string` holds a literal backslash-n escape
between two words. -/
def instArgs10 : MainArgs :=
  { input_string := some ("hello" ++ "\\n" ++ "world")
    diff_file := none
    console_output := false
    dictionary := ""
    gitFiles := []
    gitDiff := fun _ => ""
    checker := fun _ => "" }

/-! # Lemmas -/

/-! ## String and character-list basics -/

theorem toList_append (a b : String) : (a ++ b).toList = a.toList ++ b.toList := by
  cases a
  cases b
  rfl

theorem toList_asString (cs : List Char) : cs.asString.toList = cs :=
  List.toList_asString cs

theorem asString_toList (s : String) : s.toList.asString = s :=
  String.asString_toList s

theorem asString_data (s : String) : s.data.asString = s :=
  asString_toList s

theorem data_asString (cs : List Char) : cs.asString.data = cs :=
  toList_asString cs

theorem toList_eq_nil (s : String) : s.toList = [] ↔ s = "" := by
  constructor
  · intro h
    have := congrArg List.asString h
    rwa [asString_toList] at this
  · intro h
    simp [h]

theorem pyStartswith_cons_cons (c d : Char) (s pre : List Char) :
    pyStartswith (c :: s).asString (d :: pre).asString =
      ((d == c) && pyStartswith s.asString pre.asString) := by
  simp only [pyStartswith, toList_asString, List.isPrefixOf]

theorem pyStartswith_head {s pre : String} (h : pyStartswith s pre = true)
    (hpre : pre.toList ≠ []) : s.toList.head? = pre.toList.head? := by
  simp only [pyStartswith] at h
  rcases hp : pre.toList with _ | ⟨c, cs⟩
  · exact absurd hp hpre
  · rcases hs : s.toList with _ | ⟨d, ds⟩
    · rw [hp, hs] at h
      simp [List.isPrefixOf] at h
    · rw [hp, hs] at h
      simp only [List.isPrefixOf, Bool.and_eq_true, beq_iff_eq] at h
      simp [h.1]

/-! ## Association-list (dictionary) lemmas -/

theorem lookupFile_addEntry_same (changes : FileChanges) (f : String) (e : Int × String) :
    lookupFile (addEntry changes f e) f = some ((lookupFile changes f).getD [] ++ [e]) := by
  induction changes with
  | nil => simp [addEntry, lookupFile]
  | cons gp rest ih =>
    obtain ⟨g, es⟩ := gp
    by_cases hg : g = f
    · simp [addEntry, lookupFile, hg]
    · simp [addEntry, lookupFile, hg, ih]

theorem lookupFile_addEntry_ne (changes : FileChanges) (f g : String) (e : Int × String)
    (h : g ≠ f) : lookupFile (addEntry changes f e) g = lookupFile changes g := by
  induction changes with
  | nil => simp [addEntry, lookupFile, Ne.symm h]
  | cons gp rest ih =>
    obtain ⟨g', es⟩ := gp
    simp only [addEntry]
    by_cases hg : g' = f
    · have hne : ¬g' = g := by
        rw [hg]
        exact Ne.symm h
      simp [if_pos hg, lookupFile, hne]
    · simp only [if_neg hg, lookupFile]
      by_cases hgg : g' = g
      · simp [hgg]
      · simp [hgg, ih]

/-! ## Shape lemmas for `parseStep` -/

theorem startsPlus_of_startsPlusPlusPlus {line : String}
    (h : pyStartswith line "+++" = true) : pyStartswith line "+" = true := by
  simp only [pyStartswith] at h ⊢
  rcases hl : line.toList with _ | ⟨c, cs⟩ <;> rw [hl] at h
  · simp [List.isPrefixOf] at h
  · simp only [List.isPrefixOf, Bool.and_eq_true] at h
    simp [List.isPrefixOf, h.1]

theorem not_hunk_of_startsPlus {line : String}
    (h : pyStartswith line "+" = true) : pyStartswith line "@@" = false := by
  by_contra hc
  have hc' : pyStartswith line "@@" = true := by
    revert hc
    cases pyStartswith line "@@" <;> simp
  have h1 := pyStartswith_head h (by decide)
  have h2 := pyStartswith_head hc' (by decide)
  rw [h1] at h2
  simp at h2

theorem not_file_of_hunk {line : String}
    (h : pyStartswith line "@@" = true) : pyStartswith line "+++" = false := by
  by_contra hc
  have hc' : pyStartswith line "+++" = true := by
    revert hc
    cases pyStartswith line "+++" <;> simp
  have h1 := pyStartswith_head h (by decide)
  have h2 := pyStartswith_head hc' (by decide)
  rw [h1] at h2
  simp at h2

theorem parseStep_file {s : DiffState} {line : String}
    (h : pyStartswith line "+++" = true) :
    parseStep s line = { s with current_file := some (normFile line) } := by
  simp [parseStep, h]

theorem parseStep_hunk_none {s : DiffState} {line : String}
    (h : pyStartswith line "@@" = true) (ht : hunkToken line = none) :
    parseStep s line = s := by
  simp [parseStep, h, ht, not_file_of_hunk h]

theorem parseStep_hunk_some {s : DiffState} {line tok : String} {r : Option Int}
    (h : pyStartswith line "@@" = true) (ht : hunkToken line = some tok)
    (hp : parseHunkStart tok = r) :
    parseStep s line = { s with current_line := r } := by
  cases r with
  | none => simp [parseStep, h, ht, hp, not_file_of_hunk h]
  | some n => simp [parseStep, h, ht, hp, not_file_of_hunk h]

theorem parseStep_plus_armed {s : DiffState} {line : String} {f : String} {n : Int}
    (h : pyStartswith line "+" = true) (h3 : pyStartswith line "+++" = false)
    (hf : s.current_file = some f) (hn : s.current_line = some n) (hne : f ≠ "") :
    parseStep s line =
      { s with
        file_changes := addEntry s.file_changes f (n, (line.toList.drop 1).asString),
        current_line := some (n + 1) } := by
  simp [parseStep, h, h3, not_hunk_of_startsPlus h, hf, hn, hne]

theorem parseStep_plus_unarmed {s : DiffState} {line : String}
    (h : pyStartswith line "+" = true) (h3 : pyStartswith line "+++" = false)
    (hok : s.current_file = none ∨ s.current_file = some "" ∨ s.current_line = none) :
    parseStep s line = s := by
  simp only [parseStep, h3, h, not_hunk_of_startsPlus h, Bool.false_eq_true, if_false,
    Bool.not_false, Bool.and_self, if_true]
  rcases hf : s.current_file with _ | f
  · rfl
  · rcases hn : s.current_line with _ | n
    · rfl
    · rcases hok with h1 | h2 | h3
      · rw [hf] at h1
        cases h1
      · rw [hf] at h2
        cases h2
        simp
      · rw [hn] at h3
        cases h3

theorem parseStep_other {s : DiffState} {line : String}
    (h1 : pyStartswith line "+" = false) (h2 : pyStartswith line "@@" = false) :
    parseStep s line = s := by
  have h3 : pyStartswith line "+++" = false := by
    by_contra hc
    have hc' : pyStartswith line "+++" = true := by
      revert hc
      cases pyStartswith line "+++" <;> simp
    rw [startsPlus_of_startsPlusPlusPlus hc'] at h1
    cases h1
  simp [parseStep, h1, h2, h3]

theorem parseFold_cons (s : DiffState) (l : String) (ls : List String) :
    parseFold s (l :: ls) = parseFold (parseStep s l) ls := rfl

theorem parseFold_nil (s : DiffState) : parseFold s [] = s := rfl

/-! ## C9: the parser is total, its one fallible operation guarded -/

theorem parseStepE_ok (s : DiffState) (line : String) :
    parseStepE s line = Except.ok (parseStep s line) := by
  simp only [parseStepE, parseStep, pyIntE, parseHunkStart]
  by_cases h1 : pyStartswith line "+++" = true
  · simp [h1]
  · simp only [h1, if_false]
    by_cases h2 : pyStartswith line "@@" = true
    · simp only [h2, if_true]
      rcases ht : hunkToken line with _ | tok
      · rfl
      · rcases hp : pyInt (hunkNumStr tok) with _ | n <;> simp [hp]
    · simp only [h2, if_false]
      cases h3 : pyStartswith line "+" <;> simp [h3]

theorem foldlM_parseStepE_ok (ls : List String) (s : DiffState) :
    List.foldlM parseStepE s ls = Except.ok (List.foldl parseStep s ls) := by
  induction ls generalizing s with
  | nil => rfl
  | cons l rest ih =>
    rw [List.foldlM_cons, parseStepE_ok, List.foldl_cons]
    simpa using ih (parseStep s l)

/-- C9: the diff parser is a total function: on every input string the
exception-explicit semantics `parse_diff_contentE` — in which `int()`
raises `ValueError` exactly when its argument does not parse, and the
`try/except` guards it — returns `Except.ok` of the mapping computed by
the pure parser; no input makes it raise. -/
theorem c9_parser_total (diff_text : String) :
    parse_diff_contentE diff_text = Except.ok (parse_diff_content diff_text) := by
  rw [parse_diff_contentE, foldlM_parseStepE_ok]
  rfl

/-! ## C2 and C3: hunk headers arming and disarming the line counter -/

theorem fold_no_valid_header (ls : List String) (s : DiffState)
    (hline : s.current_line = none)
    (hls : ∀ l ∈ ls, isValidHunkHeader l = false) :
    (parseFold s ls).file_changes = s.file_changes ∧
      (parseFold s ls).current_line = none := by
  induction ls generalizing s with
  | nil => exact ⟨rfl, hline⟩
  | cons l rest ih =>
    have hl := hls l (List.mem_cons_self l rest)
    have hrest : ∀ l' ∈ rest, isValidHunkHeader l' = false :=
      fun l' hm => hls l' (List.mem_cons_of_mem l hm)
    rw [parseFold_cons]
    by_cases h1 : pyStartswith l "+++" = true
    · rw [parseStep_file h1]
      exact ih { s with current_file := some (normFile l) } hline hrest
    · have h1f : pyStartswith l "+++" = false := by
        revert h1
        cases pyStartswith l "+++" <;> simp
      by_cases h2 : pyStartswith l "@@" = true
      · rcases ht : hunkToken l with _ | tok
        · rw [parseStep_hunk_none h2 ht]
          exact ih s hline hrest
        · rcases hp : parseHunkStart tok with _ | n
          · rw [parseStep_hunk_some h2 ht hp]
            exact ih { s with current_line := none } rfl hrest
          · exfalso
            have : isValidHunkHeader l = true := by
              simp [isValidHunkHeader, h2, hunkStartOf, ht, hp]
            rw [this] at hl
            cases hl
      · have h2f : pyStartswith l "@@" = false := by
          revert h2
          cases pyStartswith l "@@" <;> simp
        by_cases h3 : pyStartswith l "+" = true
        · rw [parseStep_plus_unarmed h3 h1f (Or.inr (Or.inr hline))]
          exact ih s hline hrest
        · have h3f : pyStartswith l "+" = false := by
            revert h3
            cases pyStartswith l "+" <;> simp
          rw [parseStep_other h3f h2f]
          exact ih s hline hrest

/-- C2 (corrected): in any diff, no entries at all are produced while
no valid hunk header has yet been seen: if no line of the diff is a
valid hunk header the parser's result is empty, and after any prefix of
the diff free of valid hunk headers the accumulated mapping is empty
and `current_line` is still unset, so every `+` line in such a prefix
was dropped.  (The claim's stronger reading — that the header must lie
between a file's own `+++` line and its `+` lines — is refuted by
`c2_cex`: the counter armed under an earlier file header persists.) -/
theorem c2_valid_header_required (diff_text : String) :
    ((∀ l ∈ pySplitlines diff_text, isValidHunkHeader l = false) →
      parse_diff_content diff_text = []) ∧
    (∀ n, (∀ l ∈ (pySplitlines diff_text).take n, isValidHunkHeader l = false) →
      (parseFold initState ((pySplitlines diff_text).take n)).file_changes = [] ∧
      (parseFold initState ((pySplitlines diff_text).take n)).current_line = none) := by
  constructor
  · intro hall
    exact (fold_no_valid_header (pySplitlines diff_text) initState rfl hall).1
  · intro n hall
    exact fold_no_valid_header ((pySplitlines diff_text).take n) initState rfl hall

/-- C2 counterexample: in the diff
`+++ b/g`, `@@ -1 +5,2 @@`, `+++ b/f`, `+hello` no hunk header occurs
between file `f`'s `+++` header and `f`'s added line, yet the parser
emits the entry `(5, "hello")` for `f` — the counter armed under `g`'s
section persists across the `+++` line. -/
theorem c2_cex :
    lookupFile (parse_diff_content "+++ b/g\n@@ -1 +5,2 @@\n+++ b/f\n+hello") "f" =
      some [(5, "hello")] ∧
    (pySplitlines "+++ b/g\n@@ -1 +5,2 @@\n+++ b/f\n+hello").drop 2 =
      ["+++ b/f", "+hello"] ∧
    (∀ l ∈ ["+++ b/f", "+hello"], pyStartswith l "@@" = false) := by
  decide

theorem c2_valid_header_required_inst :
    parse_diff_content "hello\n+world\n+++ b/f\n+typo" = [] :=
  (c2_valid_header_required "hello\n+world\n+++ b/f\n+typo").1 (by decide)

/-- C3 (corrected): a `@@` line that contains a token beginning with
`+` whose integer parse fails unsets `current_line` without raising and
without touching the mapping, and subsequent `+` lines are dropped
until a valid hunk header appears; a `@@` line with no `+`-token at all
leaves the whole state — `current_line` included — unchanged, rather
than unsetting it as the claim stated. -/
theorem c3_malformed_hunk_header :
    (∀ (s : DiffState) (line tok : String), pyStartswith line "@@" = true →
      hunkToken line = some tok → parseHunkStart tok = none →
      (parseStep s line).current_line = none ∧
      (parseStep s line).current_file = s.current_file ∧
      (parseStep s line).file_changes = s.file_changes ∧
      ∀ ls, (∀ l ∈ ls, isValidHunkHeader l = false) →
        (parseFold (parseStep s line) ls).file_changes = s.file_changes) ∧
    (∀ (s : DiffState) (line : String), pyStartswith line "@@" = true →
      hunkToken line = none → parseStep s line = s) := by
  constructor
  · intro s line tok h2 ht hp
    rw [parseStep_hunk_some h2 ht hp]
    refine ⟨rfl, rfl, rfl, fun ls hls => ?_⟩
    exact (fold_no_valid_header ls { s with current_line := none } rfl hls).1
  · intro s line h2 ht
    exact parseStep_hunk_none h2 ht

/-- C3 counterexample: the diff
`+++ b/f`, `@@ -1 +5,2 @@`, `+x`, `@@`, `+y` has a `@@` line with no
token beginning with `+`; the claim says `current_line` becomes unset
there and `+y` is dropped, but the parser keeps the counter (still
`6`) and emits `(6, "y")`. -/
theorem c3_cex :
    parse_diff_content "+++ b/f\n@@ -1 +5,2 @@\n+x\n@@\n+y" =
      [("f", [(5, "x"), (6, "y")])] ∧
    hunkToken "@@" = none ∧
    (parseStep ⟨[("f", [(5, "x")])], some "f", some 6⟩ "@@").current_line = some 6 := by
  decide

theorem c3_malformed_hunk_header_inst :
    (parseStep initState "@@ -1 +x,2 @@").current_line = none ∧
    (parseFold (parseStep initState "@@ -1 +x,2 @@") ["+dropped"]).file_changes =
      initState.file_changes := by
  have h := c3_malformed_hunk_header.1 initState "@@ -1 +x,2 @@" "+x,2"
    (by decide) (by decide) (by decide)
  exact ⟨h.1, h.2.2.2 ["+dropped"] (by decide)⟩

/-! ## Character-class arithmetic -/

theorem isDigitCh_iff {c : Char} : isDigitCh c = true ↔ 48 ≤ c.toNat ∧ c.toNat ≤ 57 := by
  simp [isDigitCh]

theorem digit_not_boundary {c : Char} (h : isDigitCh c = true) :
    isLineBoundary c = false := by
  rw [isDigitCh_iff] at h
  simp [isLineBoundary]
  omega

theorem digit_not_space {c : Char} (h : isDigitCh c = true) : pyIsSpace c = false := by
  rw [isDigitCh_iff] at h
  simp [pyIsSpace]
  omega

theorem digit_toNat_ne {c : Char} {n : Nat} (h : isDigitCh c = true)
    (hn : n < 48 ∨ 57 < n) : c.toNat ≠ n := by
  rw [isDigitCh_iff] at h
  omega

theorem digit_ne {c d : Char} (h : isDigitCh c = true)
    (hd : d.toNat < 48 ∨ 57 < d.toNat) : c ≠ d := by
  intro hc
  exact digit_toNat_ne h hd (congrArg Char.toNat hc)

/-! ## `splitlines` computation lemmas -/

theorem splitlinesAux_cons_nb (acc : List Char) (c : Char) (cs : List Char)
    (h : isLineBoundary c = false) :
    splitlinesAux acc (c :: cs) = splitlinesAux (c :: acc) cs := by
  have hcr : ¬c = '\r' := by
    intro hh
    rw [hh] at h
    exact absurd h (by decide)
  cases cs with
  | nil => simp [splitlinesAux, h]
  | cons d ds => simp [splitlinesAux, h, hcr]

theorem splitlinesAux_newline (acc : List Char) (cs : List Char) :
    splitlinesAux acc ('\n' :: cs) =
      acc.reverse.asString :: (if cs.isEmpty then [] else splitlinesAux [] cs) := by
  have hb : isLineBoundary '\n' = true := by decide
  have hr : ¬('\n' : Char) = '\r' := by decide
  cases cs with
  | nil => simp [splitlinesAux, hb]
  | cons d ds => simp [splitlinesAux, hb, hr]

theorem splitlinesAux_no_boundary (cs : List Char) (acc : List Char)
    (h : ∀ c ∈ cs, isLineBoundary c = false) :
    splitlinesAux acc cs = [(acc.reverse ++ cs).asString] := by
  induction cs generalizing acc with
  | nil => simp [splitlinesAux]
  | cons c rest ih =>
    rw [splitlinesAux_cons_nb _ _ _ (h c (by simp))]
    rw [ih (c :: acc) (fun x hx => h x (by simp [hx]))]
    simp

theorem splitlinesAux_break (p : List Char) (acc rest : List Char)
    (hp : ∀ c ∈ p, isLineBoundary c = false) (hrest : rest ≠ []) :
    splitlinesAux acc (p ++ '\n' :: rest) =
      (acc.reverse ++ p).asString :: splitlinesAux [] rest := by
  induction p generalizing acc with
  | nil =>
    rw [List.nil_append, splitlinesAux_newline]
    simp [List.isEmpty_iff, hrest]
  | cons c p' ih =>
    rw [List.cons_append, splitlinesAux_cons_nb _ _ _ (hp c (by simp))]
    rw [ih (c :: acc) (fun x hx => hp x (by simp [hx]))]
    simp

theorem joinWith_cons_cons (sep : String) (p q : String) (ps : List String) :
    joinWith sep (p :: q :: ps) = p ++ sep ++ joinWith sep (q :: ps) := rfl

theorem joinWith_toList_ne_nil (q : String) (ps : List String) (hq : q ≠ "") :
    (joinWith "\n" (q :: ps)).toList ≠ [] := by
  have hqt : q.toList ≠ [] := fun hh => hq ((toList_eq_nil q).mp hh)
  cases ps with
  | nil => exact hqt
  | cons r ps' =>
    rw [joinWith_cons_cons, toList_append, toList_append]
    simp only [List.append_assoc]
    intro hh
    exact hqt (List.append_eq_nil.mp hh).1

theorem pySplitlines_ne_empty (s : String) (hs : s.toList ≠ []) :
    pySplitlines s = splitlinesAux [] s.toList := by
  rw [pySplitlines, if_neg (by simpa [List.isEmpty_iff] using hs)]

theorem pySplitlines_joinWith (parts : List String) (hne : parts ≠ [])
    (hparts : ∀ p ∈ parts, p ≠ "" ∧ ∀ c ∈ p.toList, isLineBoundary c = false) :
    pySplitlines (joinWith "\n" parts) = parts := by
  induction parts with
  | nil => exact absurd rfl hne
  | cons p ps ih =>
    have hp := hparts p (by simp)
    have hpt : p.toList ≠ [] := fun hh => hp.1 ((toList_eq_nil p).mp hh)
    cases ps with
    | nil =>
      show pySplitlines p = [p]
      rw [pySplitlines_ne_empty p hpt]
      rw [splitlinesAux_no_boundary p.toList [] hp.2]
      simp [asString_data]
    | cons q ps' =>
      have hq := hparts q (by simp)
      have hrest : (joinWith "\n" (q :: ps')).toList ≠ [] :=
        joinWith_toList_ne_nil q ps' hq.1
      have hwhole : (joinWith "\n" (p :: q :: ps')).toList ≠ [] := by
        rw [joinWith_cons_cons, toList_append, toList_append]
        simp only [List.append_assoc]
        intro hh
        exact hpt (List.append_eq_nil.mp hh).1
      rw [pySplitlines_ne_empty _ hwhole]
      rw [joinWith_cons_cons, toList_append, toList_append]
      have hnl : ("\n" : String).toList = ['\n'] := rfl
      rw [hnl, List.append_assoc, List.singleton_append]
      rw [splitlinesAux_break p.toList [] _ hp.2 hrest]
      have hih := ih (by simp) (fun x hx => hparts x (by simp [hx]))
      rw [pySplitlines_ne_empty _ hrest] at hih
      rw [hih]
      simp [asString_data]

/-! ## `split` computation lemmas -/

theorem pySplitAux_cons_nb (acc : List Char) (c : Char) (cs : List Char)
    (h : pyIsSpace c = false) :
    pySplitAux acc (c :: cs) = pySplitAux (c :: acc) cs := by
  simp [pySplitAux, h]

theorem pySplitAux_no_space (cs : List Char) (acc : List Char)
    (h : ∀ c ∈ cs, pyIsSpace c = false) :
    pySplitAux acc cs =
      if (acc.reverse ++ cs).isEmpty then [] else [(acc.reverse ++ cs).asString] := by
  induction cs generalizing acc with
  | nil => simp [pySplitAux, List.isEmpty_iff]
  | cons c rest ih =>
    rw [pySplitAux_cons_nb _ _ _ (h c (by simp))]
    rw [ih (c :: acc) (fun x hx => h x (by simp [hx]))]
    simp

theorem pySplitAux_break (p : List Char) (acc rest : List Char)
    (hp : ∀ c ∈ p, pyIsSpace c = false) :
    pySplitAux acc (p ++ ' ' :: rest) =
      if (acc.reverse ++ p).isEmpty then pySplitAux [] rest
      else (acc.reverse ++ p).asString :: pySplitAux [] rest := by
  induction p generalizing acc with
  | nil =>
    simp only [List.nil_append, pySplitAux, List.isEmpty_iff, List.append_nil]
    have : pyIsSpace ' ' = true := by decide
    simp [this, List.isEmpty_iff]
  | cons c p' ih =>
    rw [List.cons_append, pySplitAux_cons_nb _ _ _ (hp c (by simp))]
    rw [ih (c :: acc) (fun x hx => hp x (by simp [hx]))]
    simp

theorem pySplit_joinWith (toks : List String) (hne : toks ≠ [])
    (htoks : ∀ t ∈ toks, t ≠ "" ∧ ∀ c ∈ t.toList, pyIsSpace c = false) :
    pySplit (joinWith " " toks) = toks := by
  induction toks with
  | nil => exact absurd rfl hne
  | cons t ts ih =>
    have ht := htoks t (by simp)
    have htt : t.toList ≠ [] := fun hh => ht.1 ((toList_eq_nil t).mp hh)
    have htd : ¬t.data = [] := htt
    cases ts with
    | nil =>
      show pySplit t = [t]
      rw [pySplit, pySplitAux_no_space t.toList [] ht.2]
      simp [List.isEmpty_iff, htd, asString_data]
    | cons q ts' =>
      rw [joinWith_cons_cons, pySplit]
      rw [toList_append, toList_append]
      have hsp : (" " : String).toList = [' '] := rfl
      rw [hsp, List.append_assoc, List.singleton_append]
      rw [pySplitAux_break t.toList [] _ ht.2]
      rw [if_neg (by simp [List.isEmpty_iff, htd])]
      have hih := ih (by simp) (fun x hx => htoks x (by simp [hx]))
      rw [pySplit] at hih
      rw [hih]
      simp [asString_data]

/-! ## `int()` on digit strings -/

theorem validDigitsTail_all (cs : List Char) (h : ∀ c ∈ cs, isDigitCh c = true) :
    validDigitsTail cs = true := by
  induction cs with
  | nil => rfl
  | cons c rest ih =>
    have hc := h c (by simp)
    have hne : ¬c = '_' := digit_ne hc (by decide)
    have hr := ih (fun x hx => h x (by simp [hx]))
    show validDigitsTail (c :: rest) = true
    rw [validDigitsTail.eq_def]
    simp only [if_neg hne, hc, hr, Bool.and_self]

theorem pyInt_digits (cs : List Char) (hne : cs ≠ [])
    (h : ∀ c ∈ cs, isDigitCh c = true) :
    pyInt cs.asString = some (digitsNat cs) := by
  cases cs with
  | nil => exact absurd rfl hne
  | cons c rest =>
    have hc := h c (by simp)
    have hplus : ¬c = '+' := digit_ne hc (by decide)
    have hminus : ¬c = '-' := digit_ne hc (by decide)
    have hcore : validDigitsCore (c :: rest) = true := by
      simp [validDigitsCore, hc,
        validDigitsTail_all rest (fun x hx => h x (by simp [hx]))]
    simp [pyInt, toList_asString, data_asString, hplus, hminus, hcore]

theorem takeWhile_append_stop (p : List Char) (c : Char) (q : List Char)
    (pred : Char → Bool) (hp : ∀ x ∈ p, pred x = true) (hc : pred c = false) :
    (p ++ c :: q).takeWhile pred = p := by
  induction p with
  | nil => simp [List.takeWhile, hc]
  | cons x p' ih =>
    rw [List.cons_append, List.takeWhile_cons, hp x (by simp)]
    simp [ih (fun y hy => hp y (by simp [hy]))]

/-! ## C1: the single-hunk round trip -/

theorem pyStartswith_ne_head {s pre : String} {c d : Char}
    (hs : s.toList.head? = some c) (hp : pre.toList.head? = some d) (hne : c ≠ d) :
    pyStartswith s pre = false := by
  by_contra hb
  have hb' : pyStartswith s pre = true := by
    revert hb
    cases pyStartswith s pre <;> simp
  have hpre : pre.toList ≠ [] := by
    intro hh
    rw [hh] at hp
    cases hp
  have := pyStartswith_head hb' hpre
  rw [hs, hp] at this
  exact hne (Option.some_inj.mp this)

theorem plusLine_toList (t : String) : ("+" ++ t).toList = '+' :: t.toList := by
  rw [toList_append]
  rfl

theorem plusLine_starts_plus (t : String) : pyStartswith ("+" ++ t) "+" = true := by
  simp [pyStartswith, plusLine_toList, List.isPrefixOf]

theorem fileHeader_toList (F : String) :
    ("+++ b/" ++ F).toList = '+' :: '+' :: '+' :: ' ' :: 'b' :: '/' :: F.toList := by
  rw [toList_append]
  rfl

theorem fileHeader_starts (F : String) : pyStartswith ("+++ b/" ++ F) "+++" = true := by
  simp [pyStartswith, fileHeader_toList, List.isPrefixOf]

theorem normFile_b (F : String) : normFile ("+++ b/" ++ F) = F := by
  rw [normFile, fileHeader_toList]
  simp only [List.drop]
  have hbs : pyStartswith ('b' :: '/' :: F.toList).asString "b/" = true := by
    simp [pyStartswith, toList_asString, List.isPrefixOf]
  rw [if_pos hbs]
  simp [toList_asString, asString_data]

theorem parseFold_plus_lines (contents : List String) (ch : FileChanges) (F : String)
    (n : Int) (hF : F ≠ "")
    (hc : ∀ t ∈ contents, pyStartswith ("+" ++ t) "+++" = false) :
    parseFold ⟨ch, some F, some n⟩ (contents.map (fun t => "+" ++ t)) =
      ⟨addEntriesFrom ch F n contents, some F, some (n + contents.length)⟩ := by
  induction contents generalizing ch n with
  | nil => simp [parseFold_nil, addEntriesFrom]
  | cons t rest ih =>
    have h3 := hc t (by simp)
    have h1 := plusLine_starts_plus t
    rw [List.map_cons, parseFold_cons]
    rw [parseStep_plus_armed h1 h3 rfl rfl hF]
    have hdrop : ((("+" ++ t).toList).drop 1).asString = t := by
      rw [plusLine_toList]
      simp [asString_data]
    rw [hdrop]
    rw [ih (addEntry ch F (n, t)) (n + 1) (fun x hx => hc x (by simp [hx]))]
    simp only [addEntriesFrom, List.length_cons, DiffState.mk.injEq, true_and]
    congr 1
    push_cast
    ring

theorem lookupFile_addEntriesFrom (contents : List String) (ch : FileChanges)
    (F : String) (n : Int) :
    (lookupFile (addEntriesFrom ch F n contents) F).getD [] =
      (lookupFile ch F).getD [] ++ numberFrom n contents := by
  induction contents generalizing ch n with
  | nil => simp [addEntriesFrom, numberFrom]
  | cons t rest ih =>
    simp only [addEntriesFrom]
    rw [ih (addEntry ch F (n, t)) (n + 1)]
    rw [lookupFile_addEntry_same]
    simp [numberFrom]

theorem stdHunkHeader_eq (sa sb sc sd : String) :
    stdHunkHeader sa sb sc sd =
      "@@" ++ " " ++ (("-" ++ sa ++ "," ++ sb) ++ " " ++
        (("+" ++ sc ++ "," ++ sd) ++ " " ++ "@@")) := by
  rfl

theorem minusTok_toList (sa sb : String) :
    ("-" ++ sa ++ "," ++ sb).toList = '-' :: (sa.toList ++ ',' :: sb.toList) := by
  rw [toList_append, toList_append, toList_append]
  simp

theorem plusTok_toList (sc sd : String) :
    ("+" ++ sc ++ "," ++ sd).toList = '+' :: (sc.toList ++ ',' :: sd.toList) := by
  rw [toList_append, toList_append, toList_append]
  simp

theorem digitStr_tok_no_space (pre : Char) (sa sb : String)
    (hpre : pyIsSpace pre = false) (hsa : DigitStr sa) (hsb : DigitStr sb)
    (htl : (String.mk (pre :: (sa.toList ++ ',' :: sb.toList))).toList =
      pre :: (sa.toList ++ ',' :: sb.toList)) :
    ∀ c ∈ (String.mk (pre :: (sa.toList ++ ',' :: sb.toList))).toList,
      pyIsSpace c = false := by
  rw [htl]
  intro c hc
  rcases List.mem_cons.mp hc with h | h
  · rw [h]
    exact hpre
  · rcases List.mem_append.mp h with h' | h'
    · exact digit_not_space (hsa.2 c h')
    · rcases List.mem_cons.mp h' with h'' | h''
      · rw [h'']
        decide
      · exact digit_not_space (hsb.2 c h'')

theorem stdHunkHeader_split (sa sb sc sd : String) (hsa : DigitStr sa)
    (hsb : DigitStr sb) (hsc : DigitStr sc) (hsd : DigitStr sd) :
    pySplit (stdHunkHeader sa sb sc sd) =
      ["@@", "-" ++ sa ++ "," ++ sb, "+" ++ sc ++ "," ++ sd, "@@"] := by
  apply pySplit_joinWith
  · simp
  · intro t ht
    simp only [List.mem_cons, List.not_mem_nil, or_false] at ht
    rcases ht with h | h | h | h
    · subst h
      exact ⟨by decide, by decide⟩
    · subst h
      constructor
      · intro hh
        have := congrArg String.toList hh
        rw [minusTok_toList] at this
        cases this
      · rw [minusTok_toList]
        intro c hc
        rcases List.mem_cons.mp hc with h' | h'
        · rw [h']
          decide
        · rcases List.mem_append.mp h' with h'' | h''
          · exact digit_not_space (hsa.2 c h'')
          · rcases List.mem_cons.mp h'' with h3 | h3
            · rw [h3]
              decide
            · exact digit_not_space (hsb.2 c h3)
    · subst h
      constructor
      · intro hh
        have := congrArg String.toList hh
        rw [plusTok_toList] at this
        cases this
      · rw [plusTok_toList]
        intro c hc
        rcases List.mem_cons.mp hc with h' | h'
        · rw [h']
          decide
        · rcases List.mem_append.mp h' with h'' | h''
          · exact digit_not_space (hsc.2 c h'')
          · rcases List.mem_cons.mp h'' with h3 | h3
            · rw [h3]
              decide
            · exact digit_not_space (hsd.2 c h3)
    · subst h
      exact ⟨by decide, by decide⟩

theorem hunkToken_std (sa sb sc sd : String) (hsa : DigitStr sa)
    (hsb : DigitStr sb) (hsc : DigitStr sc) (hsd : DigitStr sd) :
    hunkToken (stdHunkHeader sa sb sc sd) = some ("+" ++ sc ++ "," ++ sd) := by
  rw [hunkToken, stdHunkHeader_split sa sb sc sd hsa hsb hsc hsd]
  have h1 : pyStartswith "@@" "+" = false := by decide
  have h2 : pyStartswith ("-" ++ sa ++ "," ++ sb) "+" = false := by
    apply pyStartswith_ne_head (c := '-') (d := '+')
    · rw [minusTok_toList]
      rfl
    · rfl
    · decide
  have h3 : pyStartswith ("+" ++ sc ++ "," ++ sd) "+" = true := by
    simp [pyStartswith, plusTok_toList, List.isPrefixOf]
  simp [List.find?, h1, h2, h3]

theorem parseHunkStart_std (sc sd : String) (hsc : DigitStr sc) :
    parseHunkStart ("+" ++ sc ++ "," ++ sd) = some ((digitsNat sc.toList : Int)) := by
  rw [parseHunkStart, hunkNumStr, plusTok_toList]
  have hsplit : ('+' :: (sc.toList ++ ',' :: sd.toList)) =
      ('+' :: sc.toList) ++ ',' :: sd.toList := by simp
  rw [hsplit]
  rw [takeWhile_append_stop ('+' :: sc.toList) ',' sd.toList _ ?hall (by simp)]
  case hall =>
    intro x hx
    rcases List.mem_cons.mp hx with h | h
    · rw [h]
      decide
    · simp only [decide_eq_true_eq]
      exact digit_ne (hsc.2 x h) (by decide)
  simp only [List.drop_succ_cons, List.drop_zero]
  exact pyInt_digits sc.toList (fun hh => hsc.1 ((toList_eq_nil sc).mp hh)) hsc.2

theorem stdHunkHeader_starts_hunk (sa sb sc sd : String) :
    pyStartswith (stdHunkHeader sa sb sc sd) "@@" = true := by
  rw [stdHunkHeader_eq]
  simp [pyStartswith, toList_append, List.isPrefixOf]

theorem stdHunkHeader_not_file (sa sb sc sd : String) :
    pyStartswith (stdHunkHeader sa sb sc sd) "+++" = false :=
  not_file_of_hunk (stdHunkHeader_starts_hunk sa sb sc sd)

theorem stdHunkHeader_toList (sa sb sc sd : String) :
    (stdHunkHeader sa sb sc sd).toList =
      '@' :: '@' :: ' ' :: '-' :: (sa.toList ++ ',' ::
        (sb.toList ++ ' ' :: '+' :: (sc.toList ++ ',' ::
          (sd.toList ++ [' ', '@', '@'])))) := by
  have e1 : ("@@" : String).toList = ['@', '@'] := rfl
  have e2 : (" " : String).toList = [' '] := rfl
  simp [stdHunkHeader_eq, toList_append, e1, e2, minusTok_toList, plusTok_toList]

theorem stdHunkHeader_no_boundary (sa sb sc sd : String) (hsa : DigitStr sa)
    (hsb : DigitStr sb) (hsc : DigitStr sc) (hsd : DigitStr sd) :
    ∀ c ∈ (stdHunkHeader sa sb sc sd).toList, isLineBoundary c = false := by
  rw [stdHunkHeader_toList]
  refine List.forall_mem_cons.mpr ⟨by decide, ?_⟩
  refine List.forall_mem_cons.mpr ⟨by decide, ?_⟩
  refine List.forall_mem_cons.mpr ⟨by decide, ?_⟩
  refine List.forall_mem_cons.mpr ⟨by decide, ?_⟩
  refine List.forall_mem_append.mpr
    ⟨fun c hc => digit_not_boundary (hsa.2 c hc), ?_⟩
  refine List.forall_mem_cons.mpr ⟨by decide, ?_⟩
  refine List.forall_mem_append.mpr
    ⟨fun c hc => digit_not_boundary (hsb.2 c hc), ?_⟩
  refine List.forall_mem_cons.mpr ⟨by decide, ?_⟩
  refine List.forall_mem_cons.mpr ⟨by decide, ?_⟩
  refine List.forall_mem_append.mpr
    ⟨fun c hc => digit_not_boundary (hsc.2 c hc), ?_⟩
  refine List.forall_mem_cons.mpr ⟨by decide, ?_⟩
  refine List.forall_mem_append.mpr
    ⟨fun c hc => digit_not_boundary (hsd.2 c hc), ?_⟩
  decide

/-- C1 (corrected): for the single-hunk diff with header `+++ b/F`
(`F` non-empty), hunk header `@@ -a,b +c,d @@` (decimal numerals) and
`k` added lines — each beginning `+` but not `+++`, since a body line
beginning `+++` is taken as a file header — the parser produces for
`F` exactly the `k` entries `(c, t₁), (c+1, t₂), …, (c+k-1, tₖ)`, in
order, each text being the content after the leading `+`. -/
theorem c1_single_hunk_roundtrip (F sa sb sc sd : String) (contents : List String)
    (hF : F ≠ "") (hFb : ∀ c ∈ F.toList, isLineBoundary c = false)
    (hsa : DigitStr sa) (hsb : DigitStr sb) (hsc : DigitStr sc) (hsd : DigitStr sd)
    (hcont : ∀ t ∈ contents, (∀ c ∈ t.toList, isLineBoundary c = false) ∧
      pyStartswith ("+" ++ t) "+++" = false) :
    (lookupFile (parse_diff_content (singleHunkDiff F sa sb sc sd contents)) F).getD [] =
      numberFrom (digitsNat sc.toList) contents := by
  have hsplitlines : pySplitlines (singleHunkDiff F sa sb sc sd contents) =
      ("+++ b/" ++ F) :: stdHunkHeader sa sb sc sd ::
        contents.map (fun t => "+" ++ t) := by
    apply pySplitlines_joinWith
    · simp
    · intro p hp
      simp only [List.mem_cons] at hp
      rcases hp with h | h | h
      · subst h
        constructor
        · intro hh
          have := congrArg String.toList hh
          rw [fileHeader_toList] at this
          cases this
        · rw [fileHeader_toList]
          intro c hc
          simp only [List.mem_cons] at hc
          rcases hc with h | h | h | h | h | h | h
          · rw [h]; decide
          · rw [h]; decide
          · rw [h]; decide
          · rw [h]; decide
          · rw [h]; decide
          · rw [h]; decide
          · exact hFb c h
      · subst h
        constructor
        · intro hh
          have := congrArg String.toList hh
          rw [stdHunkHeader_toList] at this
          cases this
        · exact stdHunkHeader_no_boundary sa sb sc sd hsa hsb hsc hsd
      · rcases List.mem_map.mp h with ⟨t, ht, rfl⟩
        constructor
        · intro hh
          have := congrArg String.toList hh
          rw [plusLine_toList] at this
          cases this
        · rw [plusLine_toList]
          intro c hc
          rcases List.mem_cons.mp hc with h' | h'
          · rw [h']; decide
          · exact (hcont t ht).1 c h'
  rw [parse_diff_content, hsplitlines, parseFold_cons, parseFold_cons]
  rw [parseStep_file (fileHeader_starts F), normFile_b F]
  have hstate1 : ({ initState with current_file := some F } : DiffState) =
      ⟨[], some F, none⟩ := rfl
  rw [hstate1]
  rw [parseStep_hunk_some (s := (⟨[], some F, none⟩ : DiffState))
    (stdHunkHeader_starts_hunk sa sb sc sd)
    (hunkToken_std sa sb sc sd hsa hsb hsc hsd)
    (parseHunkStart_std sc sd hsc)]
  have hstate2 : ({ (⟨[], some F, none⟩ : DiffState) with
      current_line := some ((digitsNat sc.toList : Int)) } : DiffState) =
      ⟨[], some F, some ((digitsNat sc.toList : Int))⟩ := rfl
  rw [hstate2]
  rw [parseFold_plus_lines contents [] F _ hF (fun t ht => (hcont t ht).2)]
  show (lookupFile (addEntriesFrom [] F ((digitsNat sc.toList : Int)) contents) F).getD []
    = numberFrom (digitsNat sc.toList) contents
  rw [lookupFile_addEntriesFrom]
  simp [lookupFile]

/-- C1 counterexample: with `k = 1` and the added line `+++x` — a line
that starts with `+` — the claim as stated demands the entry
`(7, "++x")` for `f.md`, but the parser treats `+++x` as a file header
(`current_file` becomes the empty string) and records nothing. -/
theorem c1_cex :
    pyStartswith "+++x" "+" = true ∧
    lookupFile
      (parse_diff_content (joinWith "\n" ["+++ b/f.md", "@@ -1,1 +7,1 @@", "+++x"]))
      "f.md" = none := by
  decide

theorem c1_single_hunk_roundtrip_inst :
    (lookupFile
      (parse_diff_content (singleHunkDiff "file.md" "1" "1" "1" "2"
        ["Another bad werd here."])) "file.md").getD [] =
      numberFrom (digitsNat "1".toList) ["Another bad werd here."] :=
  c1_single_hunk_roundtrip "file.md" "1" "1" "1" "2" ["Another bad werd here."]
    (by decide) (by decide) (by decide) (by decide) (by decide) (by decide) (by decide)

/-! ## C5: tokenization, correlation and the allow-list -/

theorem annot_fun_eq (p : Int × String) (misspelled allow : List String) :
    (fun word =>
      let clean := cleanWord word
      if clean ≠ "" ∧ clean ∈ misspelled then
        if allow ≠ [] ∧ clean ∈ allow then none
        else some (p.1, clean, pyStrip p.2)
      else none) =
    (fun word : String =>
      let clean := cleanWord word
      if clean ≠ "" ∧ clean ∈ misspelled ∧ clean ∉ allow then
        some (p.1, clean, pyStrip p.2)
      else none) := by
  funext word
  dsimp only
  by_cases h1 : cleanWord word ≠ "" ∧ cleanWord word ∈ misspelled
  · rw [if_pos h1]
    by_cases h2 : cleanWord word ∈ allow
    · have hne : allow ≠ [] := by
        intro hh
        rw [hh] at h2
        cases h2
      rw [if_pos ⟨hne, h2⟩, if_neg (by tauto)]
    · rw [if_neg (by tauto), if_pos ⟨h1.1, h1.2, h2⟩]
  · rw [if_neg h1, if_neg (by tauto)]

/-- C5: the annotation loop of `run_spell_checker` computes exactly the
spec's tokenization: split each line on whitespace, strip non-alphabetic
characters, keep a token iff the candidate is non-empty, flagged by the
checker and absent from the allow-list (same-line occurrences in token
order); consequently no allow-listed word ever appears in the output,
whatever the checker reported. -/
theorem c5_tokenization_allowlist (lines : List (Int × String)) (checkerOut : String)
    (allow : List String) :
    run_spell_checker lines checkerOut allow =
      specTokenAnnots lines (pySplitlines (pyStrip checkerOut)) allow ∧
    ∀ e ∈ run_spell_checker lines checkerOut allow, e.2.1 ∉ allow := by
  have heq : run_spell_checker lines checkerOut allow =
      specTokenAnnots lines (pySplitlines (pyStrip checkerOut)) allow := by
    unfold run_spell_checker specTokenAnnots
    refine congrArg lines.flatMap (funext fun p => ?_)
    rw [annot_fun_eq p (pySplitlines (pyStrip checkerOut)) allow]
  refine ⟨heq, fun e he => ?_⟩
  rw [heq] at he
  simp only [specTokenAnnots, List.mem_flatMap, List.mem_filterMap] at he
  obtain ⟨p, _, word, _, hsome⟩ := he
  split at hsome
  next h =>
    rw [← Option.some_inj.mp hsome]
    exact h.2.2
  next => cases hsome

theorem c5_tokenization_allowlist_inst :
    run_spell_checker [(1, "a speling mistacke here")] "mistacke\nspeling\n"
        ["speling"] =
      specTokenAnnots [(1, "a speling mistacke here")] ["mistacke", "speling"]
        ["speling"] ∧
    ((1, "mistacke", "a speling mistacke here") ∈
      run_spell_checker [(1, "a speling mistacke here")] "mistacke\nspeling\n"
        ["speling"] →
      "mistacke" ∉ (["speling"] : List String)) := by
  refine ⟨?_, ?_⟩
  · have h := (c5_tokenization_allowlist [(1, "a speling mistacke here")]
      "mistacke\nspeling\n" ["speling"]).1
    rw [h]
    rfl
  · intro hm
    exact (c5_tokenization_allowlist [(1, "a speling mistacke here")]
      "mistacke\nspeling\n" ["speling"]).2 _ hm

/-! ## C8: the two rendering formats -/

theorem emit_github_map (file : String) (anns : List (Int × String × String)) :
    emit_github_annotations file anns = anns.map (githubLine file) := by
  induction anns with
  | nil => rfl
  | cons a rest ih => simp [emit_github_annotations, ih]

theorem emit_console_map (file : String) (anns : List (Int × String × String)) :
    emit_console_output file anns = anns.map (consoleLine file) := by
  induction anns with
  | nil => rfl
  | cons a rest ih => simp [emit_console_output, ih]

/-- C8: CI-annotation mode prints exactly one line per annotation, of
the form `::error file=<file>,line=<line>::Possible typo: '<word>' in
line: <context>`; console mode prints exactly one line per annotation,
of the form `<file>:<line>: typo: '<word>' in: <context>`; the mode
selection in `main` uses exactly one of the two renderers, and neither
filters the list (one output line per entry, in order). -/
theorem c8_output_formats (file : String) (anns : List (Int × String × String))
    (console : Bool) :
    emit_github_annotations file anns =
      anns.map (fun a => "::error file=" ++ file ++ ",line=" ++ toString a.1 ++
        "::Possible typo: '" ++ a.2.1 ++ "' in line: " ++ a.2.2) ∧
    emit_console_output file anns =
      anns.map (fun a => file ++ ":" ++ toString a.1 ++ ": typo: '" ++ a.2.1 ++
        "' in: " ++ a.2.2) ∧
    (emit_github_annotations file anns).length = anns.length ∧
    (emit_console_output file anns).length = anns.length ∧
    renderFileFindings console file anns =
      (if console then emit_console_output file anns
       else emit_github_annotations file anns) := by
  refine ⟨emit_github_map file anns, emit_console_map file anns, ?_, ?_, rfl⟩
  · rw [emit_github_map]
    exact List.length_map anns (githubLine file)
  · rw [emit_console_map]
    exact List.length_map anns (consoleLine file)

/-! ## C4: provenance of entries and per-file monotonicity -/

theorem mem_addEntry_lookup (ch : FileChanges) (g : String) (a : Int × String)
    (f : String) (es : List (Int × String)) (hes : lookupFile (addEntry ch g a) f = some es)
    (e : Int × String) (he : e ∈ es) :
    (∃ es₀, lookupFile ch f = some es₀ ∧ e ∈ es₀) ∨ (f = g ∧ e = a) := by
  by_cases hf : f = g
  · subst hf
    rw [lookupFile_addEntry_same] at hes
    have hes' : (lookupFile ch f).getD [] ++ [a] = es := Option.some_inj.mp hes
    rw [← hes'] at he
    rcases List.mem_append.mp he with h | h
    · left
      rcases hold : lookupFile ch f with _ | es₀
      · rw [hold] at h
        cases h
      · rw [hold] at h
        exact ⟨es₀, rfl, h⟩
    · right
      exact ⟨rfl, List.mem_singleton.mp h⟩
  · rw [lookupFile_addEntry_ne ch g f a hf] at hes
    exact Or.inl ⟨es, hes, he⟩

theorem parseFold_entry_src (ls : List String) (s : DiffState) (f : String)
    (es : List (Int × String))
    (hes : lookupFile (parseFold s ls).file_changes f = some es) :
    ∀ e ∈ es,
      (∃ es₀, lookupFile s.file_changes f = some es₀ ∧ e ∈ es₀) ∨
      ∃ l ∈ ls, pyStartswith l "+" = true ∧ pyStartswith l "+++" = false ∧
        (l.toList.drop 1).asString = e.2 := by
  induction ls generalizing s with
  | nil =>
    intro e he
    exact Or.inl ⟨es, hes, he⟩
  | cons l rest ih =>
    rw [parseFold_cons] at hes
    intro e he
    have hstep := ih (parseStep s l) hes e he
    rcases hstep with ⟨es₀, hlook, hmem⟩ | ⟨l', hl', hrest⟩
    · -- the entry was already present after processing `l`
      by_cases h1 : pyStartswith l "+++" = true
      · rw [parseStep_file h1] at hlook
        exact Or.inl ⟨es₀, hlook, hmem⟩
      · have h1f : pyStartswith l "+++" = false := by
          revert h1
          cases pyStartswith l "+++" <;> simp
        by_cases h2 : pyStartswith l "@@" = true
        · rcases ht : hunkToken l with _ | tok
          · rw [parseStep_hunk_none h2 ht] at hlook
            exact Or.inl ⟨es₀, hlook, hmem⟩
          · rw [parseStep_hunk_some h2 ht rfl] at hlook
            exact Or.inl ⟨es₀, hlook, hmem⟩
        · have h2f : pyStartswith l "@@" = false := by
            revert h2
            cases pyStartswith l "@@" <;> simp
          by_cases h3 : pyStartswith l "+" = true
          · rcases hcf : s.current_file with _ | g
            · rw [parseStep_plus_unarmed h3 h1f (Or.inl hcf)] at hlook
              exact Or.inl ⟨es₀, hlook, hmem⟩
            · rcases hcl : s.current_line with _ | n
              · rw [parseStep_plus_unarmed h3 h1f (Or.inr (Or.inr hcl))] at hlook
                exact Or.inl ⟨es₀, hlook, hmem⟩
              · by_cases hg : g = ""
                · subst hg
                  rw [parseStep_plus_unarmed h3 h1f (Or.inr (Or.inl hcf))] at hlook
                  exact Or.inl ⟨es₀, hlook, hmem⟩
                · rw [parseStep_plus_armed h3 h1f hcf hcl hg] at hlook
                  rcases mem_addEntry_lookup s.file_changes g
                      (n, (l.toList.drop 1).asString) f es₀ hlook e hmem with
                    hold | ⟨_, rfl⟩
                  · exact Or.inl hold
                  · exact Or.inr ⟨l, List.mem_cons_self l rest, h3, h1f, rfl⟩
          · have h3f : pyStartswith l "+" = false := by
              revert h3
              cases pyStartswith l "+" <;> simp
            rw [parseStep_other h3f h2f] at hlook
            exact Or.inl ⟨es₀, hlook, hmem⟩
    · exact Or.inr ⟨l', List.mem_cons_of_mem l hl', hrest⟩

theorem parseInv_step (seen : List String) (s : DiffState) (l : String)
    (hinv : ParseInv seen s)
    (hfresh : pyStartswith l "@@" = true → headerFreshB s l = true)
    (hnew : pyStartswith l "+++" = true → normFile l ∉ seen) :
    ParseInv (if pyStartswith l "+++" = true then seen ++ [normFile l] else seen)
      (parseStep s l) := by
  obtain ⟨inv1, inv2, inv3, inv4⟩ := hinv
  by_cases h1 : pyStartswith l "+++" = true
  · rw [if_pos h1, parseStep_file h1]
    refine ⟨fun f hf => List.mem_append_left _ (inv1 f hf), inv2, ?_, ?_⟩
    · intro f hf
      have hnf : normFile l = f := by
        simpa using hf
      rw [← hnf]
      exact List.mem_append_right _ (by simp)
    · intro f es n hf hn hlook
      have hfn : normFile l = f := by
        simpa using hf
      exfalso
      apply hnew h1
      rw [hfn]
      exact inv1 f (by rw [hlook]; rfl)
  · rw [if_neg h1]
    have h1f : pyStartswith l "+++" = false := by
      revert h1
      cases pyStartswith l "+++" <;> simp
    by_cases h2 : pyStartswith l "@@" = true
    · rcases ht : hunkToken l with _ | tok
      · rw [parseStep_hunk_none h2 ht]
        exact ⟨inv1, inv2, inv3, inv4⟩
      · rcases hp : parseHunkStart tok with _ | n
        · rw [parseStep_hunk_some h2 ht hp]
          refine ⟨inv1, inv2, inv3, ?_⟩
          intro f es n hf hn
          cases hn
        · rw [parseStep_hunk_some h2 ht hp]
          refine ⟨inv1, inv2, inv3, ?_⟩
          intro f es m hf hm hlook
          have hmn : n = m := Option.some_inj.mp (by simpa using hm)
          subst hmn
          have hso : hunkStartOf l = some n := by
            simp [hunkStartOf, ht, hp]
          have hf' : s.current_file = some f := hf
          have hlook' : lookupFile s.file_changes f = some es := hlook
          have hfb := hfresh h2
          simp only [headerFreshB, hso, hf', hlook'] at hfb
          intro e he
          have := List.all_eq_true.mp hfb e he
          simpa using this
    · have h2f : pyStartswith l "@@" = false := by
        revert h2
        cases pyStartswith l "@@" <;> simp
      by_cases h3 : pyStartswith l "+" = true
      · rcases hcf : s.current_file with _ | g
        · rw [parseStep_plus_unarmed h3 h1f (Or.inl hcf)]
          exact ⟨inv1, inv2, inv3, inv4⟩
        · rcases hcl : s.current_line with _ | n
          · rw [parseStep_plus_unarmed h3 h1f (Or.inr (Or.inr hcl))]
            exact ⟨inv1, inv2, inv3, inv4⟩
          · by_cases hg : g = ""
            · subst hg
              rw [parseStep_plus_unarmed h3 h1f (Or.inr (Or.inl hcf))]
              exact ⟨inv1, inv2, inv3, inv4⟩
            · rw [parseStep_plus_armed h3 h1f hcf hcl hg]
              set a : Int × String := (n, (l.toList.drop 1).asString) with ha
              refine ⟨?_, ?_, inv3, ?_⟩
              · intro f hf
                by_cases hfg : f = g
                · subst hfg
                  exact inv3 f hcf
                · rw [lookupFile_addEntry_ne s.file_changes g f a
                    (by exact hfg)] at hf
                  exact inv1 f hf
              · intro f es hlook
                by_cases hfg : f = g
                · subst hfg
                  rw [lookupFile_addEntry_same] at hlook
                  rw [← Option.some_inj.mp hlook]
                  rw [List.pairwise_append]
                  refine ⟨?_, by simp, ?_⟩
                  · rcases hold : lookupFile s.file_changes f with _ | es₀
                    · simp [hold]
                    · simpa [hold] using inv2 f es₀ hold
                  · intro x hx y hy
                    rcases hold : lookupFile s.file_changes f with _ | es₀
                    · rw [hold] at hx
                      cases hx
                    · rw [hold] at hx
                      have hxl := inv4 f es₀ n hcf hcl hold x hx
                      have hy' : y = a := by
                        simpa using hy
                      rw [hy', ha]
                      exact hxl
                · rw [lookupFile_addEntry_ne s.file_changes g f a
                    (by exact hfg)] at hlook
                  exact inv2 f es hlook
              · intro f es m hf hm hlook
                have hfg : f = g := by
                  simpa using hf.symm.trans hcf
                subst hfg
                have hm' : n + 1 = m := by
                  simpa using hm
                subst hm'
                rw [lookupFile_addEntry_same] at hlook
                rw [← Option.some_inj.mp hlook]
                intro e he
                rcases List.mem_append.mp he with h | h
                · rcases hold : lookupFile s.file_changes f with _ | es₀
                  · rw [hold] at h
                    cases h
                  · rw [hold] at h
                    have := inv4 f es₀ n hcf hcl hold e h
                    omega
                · have : e = a := List.mem_singleton.mp h
                  rw [this, ha]
                  omega
      · have h3f : pyStartswith l "+" = false := by
          revert h3
          cases pyStartswith l "+" <;> simp
        rw [parseStep_other h3f h2f]
        exact ⟨inv1, inv2, inv3, inv4⟩

theorem parseFold_inv (ls : List String) (seen : List String) (s : DiffState)
    (hinv : ParseInv seen s)
    (hnodup : (seen ++ (ls.filter (fun l => pyStartswith l "+++")).map normFile).Nodup)
    (hfresh : ∀ i, (hi : i < ls.length) → pyStartswith ls[i] "@@" = true →
      headerFreshB (parseFold s (ls.take i)) ls[i] = true) :
    ∃ seen', ParseInv seen' (parseFold s ls) := by
  induction ls generalizing seen s with
  | nil => exact ⟨seen, hinv⟩
  | cons l rest ih =>
    rw [parseFold_cons]
    have hstep := parseInv_step seen s l hinv
      (fun h2 => by
        have := hfresh 0 (by simp) (by simpa using h2)
        simpa using this)
      (fun h1 => by
        rw [List.filter_cons_of_pos (by simpa using h1), List.map_cons] at hnodup
        intro hmem
        rcases List.nodup_append.mp hnodup with ⟨_, _, hdisj⟩
        exact hdisj hmem (by simp))
    apply ih (if pyStartswith l "+++" = true then seen ++ [normFile l] else seen)
      (parseStep s l) hstep
    · by_cases h1 : pyStartswith l "+++" = true
      · rw [if_pos h1]
        rw [List.filter_cons_of_pos (by simpa using h1), List.map_cons] at hnodup
        simpa [List.append_assoc] using hnodup
      · rw [if_neg h1]
        rw [List.filter_cons_of_neg (by simpa using h1)] at hnodup
        exact hnodup
    · intro i hi hati
      have := hfresh (i + 1) (by simpa using Nat.succ_lt_succ hi)
        (by simpa using hati)
      simpa [List.take_succ_cons, parseFold_cons] using this

/-- C4 (corrected): every entry the parser records originates from a
`+` (added, non-`+++`) line of the diff, its text the content after the
leading `+`; and each file's list of line numbers is strictly
increasing provided the diff's `+++` lines introduce each (normalized)
file name at most once and every hunk header's parsed start number
exceeds all entries already recorded for the file being processed —
conditions every diff produced by a version-control tool meets, but
which arbitrary text can violate (`c4_cex`). -/
theorem c4_mono_and_provenance (diff_text : String) :
    (∀ f es, lookupFile (parse_diff_content diff_text) f = some es →
      ∀ e ∈ es, ∃ l ∈ pySplitlines diff_text, pyStartswith l "+" = true ∧
        pyStartswith l "+++" = false ∧ (l.toList.drop 1).asString = e.2) ∧
    (((((pySplitlines diff_text).filter (fun l => pyStartswith l "+++")).map
        normFile).Nodup) →
     (∀ i, (hi : i < (pySplitlines diff_text).length) →
        pyStartswith (pySplitlines diff_text)[i] "@@" = true →
        headerFreshB (parseFold initState ((pySplitlines diff_text).take i))
          (pySplitlines diff_text)[i] = true) →
     ∀ f es, lookupFile (parse_diff_content diff_text) f = some es →
       List.Pairwise (fun p q => p.1 < q.1) es) := by
  constructor
  · intro f es hes e he
    have := parseFold_entry_src (pySplitlines diff_text) initState f es hes e he
    rcases this with ⟨es₀, hlook, _⟩ | h
    · cases hlook
    · exact h
  · intro hnodup hfresh f es hes
    have hinv0 : ParseInv [] initState := by
      refine ⟨?_, ?_, ?_, ?_⟩
      · intro f hf
        cases hf
      · intro f es h
        cases h
      · intro f h
        cases h
      · intro f es n h
        cases h
    obtain ⟨seen', hinv⟩ := parseFold_inv (pySplitlines diff_text) [] initState hinv0
      (by simpa using hnodup) hfresh
    exact hinv.2.1 f es hes

/-- C4 counterexample: the diff `+++ b/f`, `@@ -1 +9,0 @@`, `+x`,
`@@ -1 +3,0 @@`, `+y` — hunk headers out of order — yields for `f` the
list `[(9, x), (3, y)]`, whose line numbers are not monotonically
increasing. -/
theorem c4_cex :
    lookupFile (parse_diff_content "+++ b/f\n@@ -1 +9,0 @@\n+x\n@@ -1 +3,0 @@\n+y") "f" =
      some [(9, "x"), (3, "y")] ∧
    ¬ List.Pairwise (fun p q : Int × String => p.1 < q.1) [((9 : Int), "x"), (3, "y")] := by
  decide

theorem c4_mono_and_provenance_inst :
    List.Pairwise (fun p q : Int × String => p.1 < q.1)
      ((lookupFile
        (parse_diff_content "+++ b/f\n@@ -1 +2,2 @@\n+aa\n+bb\n+++ b/g\n@@ -1 +1 @@\n+cc")
        "f").getD []) := by
  have h := (c4_mono_and_provenance
      "+++ b/f\n@@ -1 +2,2 @@\n+aa\n+bb\n+++ b/g\n@@ -1 +1 @@\n+cc").2
    (by decide) (by decide) "f" [(2, "aa"), (3, "bb")] (by decide)
  have hl : lookupFile
      (parse_diff_content "+++ b/f\n@@ -1 +2,2 @@\n+aa\n+bb\n+++ b/g\n@@ -1 +1 @@\n+cc")
      "f" = some [(2, "aa"), (3, "bb")] := by decide
  rw [hl]
  exact h

/-! ## `unicode_escape` decoding lemmas -/

theorem utf8Bytes_ascii {c : Char} (h : c.toNat < 128) : utf8Bytes c = [c.toNat] := by
  simp [utf8Bytes, h]

theorem unescapeBytes_nil : unescapeBytes [] = Except.ok [] := by
  rw [unescapeBytes.eq_def]

theorem unescapeBytes_cons_plain (b : Nat) (rest : List Nat) (h : ¬b = 92) :
    unescapeBytes (b :: rest) =
      (unescapeBytes rest).map (fun cs => Char.ofNat b :: cs) := by
  rw [unescapeBytes.eq_def]
  simp only [if_neg h]

theorem unescapeBytes_bsn_step (rest : List Nat) :
    unescapeBytes (92 :: 110 :: rest) =
      (unescapeBytes rest).map (fun cs => '\n' :: cs) := by
  rw [unescapeBytes.eq_def]
  rfl

theorem unescape_plain (cs : List Char)
    (h : ∀ c ∈ cs, c.toNat < 128 ∧ c.toNat ≠ 92) :
    unescapeBytes (cs.flatMap utf8Bytes) = Except.ok cs := by
  induction cs with
  | nil => exact unescapeBytes_nil
  | cons c rest ih =>
    have hc := h c (by simp)
    rw [List.flatMap_cons, utf8Bytes_ascii hc.1, List.singleton_append]
    rw [unescapeBytes_cons_plain _ _ hc.2]
    rw [ih (fun x hx => h x (by simp [hx]))]
    simp [Except.map, Char.ofNat_toNat]

theorem pyUnicodeEscape_plain (s : String)
    (h : ∀ c ∈ s.toList, c.toNat < 128 ∧ c.toNat ≠ 92) :
    pyUnicodeEscape s = Except.ok s := by
  rw [pyUnicodeEscape, unescape_plain s.toList h]
  simp [Except.map, asString_data]

theorem unescape_bsn (cs1 cs2 : List Char)
    (h1 : ∀ c ∈ cs1, c.toNat < 128 ∧ c.toNat ≠ 92)
    (h2 : ∀ c ∈ cs2, c.toNat < 128 ∧ c.toNat ≠ 92) :
    unescapeBytes ((cs1 ++ '\\' :: 'n' :: cs2).flatMap utf8Bytes) =
      Except.ok (cs1 ++ '\n' :: cs2) := by
  induction cs1 with
  | nil =>
    rw [List.nil_append, List.flatMap_cons, List.flatMap_cons]
    have hbs : utf8Bytes '\\' = [92] := by decide
    have hn : utf8Bytes 'n' = [110] := by decide
    rw [hbs, hn]
    rw [List.singleton_append, List.singleton_append]
    rw [unescapeBytes_bsn_step]
    rw [unescape_plain cs2 h2]
    rfl
  | cons c rest ih =>
    have hc := h1 c (by simp)
    rw [List.cons_append, List.flatMap_cons, utf8Bytes_ascii hc.1, List.singleton_append]
    rw [unescapeBytes_cons_plain _ _ hc.2]
    rw [ih (fun x hx => h1 x (by simp [hx]))]
    simp [Except.map, Char.ofNat_toNat]

theorem pyUnicodeEscape_bsn (t1 t2 : String)
    (h1 : ∀ c ∈ t1.toList, c.toNat < 128 ∧ c.toNat ≠ 92)
    (h2 : ∀ c ∈ t2.toList, c.toNat < 128 ∧ c.toNat ≠ 92) :
    pyUnicodeEscape (t1 ++ "\\n" ++ t2) = Except.ok (t1 ++ "\n" ++ t2) := by
  rw [pyUnicodeEscape]
  have htl : (t1 ++ "\\n" ++ t2).toList = t1.toList ++ '\\' :: 'n' :: t2.toList := by
    rw [toList_append, toList_append]
    simp
  rw [htl, unescape_bsn t1.toList t2.toList h1 h2]
  have hres : (t1.toList ++ '\n' :: t2.toList).asString = t1 ++ "\n" ++ t2 := by
    rw [List.asString_eq]
    rw [toList_append, toList_append]
    simp
  rw [Except.map, hres]

/-! ## C7: whitespace-only `--input-string` -/

theorem lstripChars_all_space (cs : List Char) (h : ∀ c ∈ cs, pyIsSpace c = true) :
    lstripChars cs = [] := by
  induction cs with
  | nil => rfl
  | cons c rest ih =>
    rw [lstripChars, if_pos (h c (by simp))]
    exact ih (fun x hx => h x (by simp [hx]))

theorem pySplitAux_all_space (cs : List Char) (h : ∀ c ∈ cs, pyIsSpace c = true) :
    pySplitAux [] cs = [] := by
  induction cs with
  | nil => rfl
  | cons c rest ih =>
    rw [pySplitAux, if_pos (h c (by simp))]
    simpa using ih (fun x hx => h x (by simp [hx]))

theorem pySplit_all_space (s : String) (h : ∀ c ∈ s.toList, pyIsSpace c = true) :
    pySplit s = [] :=
  pySplitAux_all_space s.toList h

theorem splitlinesAux_boundary_step (acc : List Char) (c : Char) (rest : List Char)
    (hne : ∀ rest2, c = '\r' → rest = '\n' :: rest2 → False)
    (hb : isLineBoundary c = true) :
    splitlinesAux acc (c :: rest) =
      acc.reverse.asString :: (if rest.isEmpty then [] else splitlinesAux [] rest) := by
  cases rest with
  | nil => simp [splitlinesAux, hb]
  | cons d ds =>
    by_cases hcr : c = '\r'
    · subst hcr
      have hdn : ¬d = '\n' := fun hh => hne ds rfl (by rw [hh])
      simp [splitlinesAux, hdn, hb]
    · simp [splitlinesAux, hb, hcr]

theorem splitlinesAux_space_lines (acc cs : List Char) :
    (∀ c ∈ acc, pyIsSpace c = true) → (∀ c ∈ cs, pyIsSpace c = true) →
    ∀ line ∈ splitlinesAux acc cs, ∀ c ∈ line.toList, pyIsSpace c = true := by
  induction acc, cs using splitlinesAux.induct with
  | case1 acc =>
    intro hacc _ line hline c hc
    rw [show splitlinesAux acc [] = [acc.reverse.asString] from rfl] at hline
    rw [List.mem_singleton.mp hline, toList_asString] at hc
    exact hacc c (List.mem_reverse.mp hc)
  | case2 acc rest2 ih =>
    intro hacc hcs line hline c hc
    rw [show splitlinesAux acc ('\r' :: '\n' :: rest2) =
      acc.reverse.asString ::
        (if rest2.isEmpty then [] else splitlinesAux [] rest2) from by
        simp [splitlinesAux]] at hline
    rcases List.mem_cons.mp hline with h | h
    · rw [h, toList_asString] at hc
      exact hacc c (List.mem_reverse.mp hc)
    · split at h
      · cases h
      · exact ih (by simp) (fun x hx => hcs x (by simp [hx])) line h c hc
  | case3 acc c0 rest hne hb ih =>
    intro hacc hcs line hline c hc
    rw [splitlinesAux_boundary_step acc c0 rest hne hb] at hline
    rcases List.mem_cons.mp hline with h | h
    · rw [h, toList_asString] at hc
      exact hacc c (List.mem_reverse.mp hc)
    · split at h
      · cases h
      · exact ih (by simp) (fun x hx => hcs x (by simp [hx])) line h c hc
  | case4 acc c0 rest hne hnb ih =>
    intro hacc hcs line hline c hc
    rw [splitlinesAux_cons_nb acc c0 rest (by simpa using hnb)] at hline
    refine ih ?_ (fun x hx => hcs x (by simp [hx])) line hline c hc
    intro x hx
    rcases List.mem_cons.mp hx with h | h
    · rw [h]
      exact hcs c0 (by simp)
    · exact hacc x h

theorem numberFrom_snd_mem (ls : List String) (n : Int) (p : Int × String)
    (hp : p ∈ numberFrom n ls) : p.2 ∈ ls := by
  induction ls generalizing n with
  | nil => cases hp
  | cons t rest ih =>
    rw [numberFrom] at hp
    rcases List.mem_cons.mp hp with h | h
    · rw [h]
      simp
    · exact List.mem_cons_of_mem t (ih (n + 1) h)

theorem run_spell_checker_no_tokens (lines : List (Int × String)) (out : String)
    (dict : List String) (h : ∀ p ∈ lines, pySplit p.2 = []) :
    run_spell_checker lines out dict = [] := by
  rw [run_spell_checker]
  induction lines with
  | nil => rfl
  | cons p rest ih =>
    rw [List.flatMap_cons, h p (by simp)]
    simpa using ih (fun q hq => h q (by simp [hq]))

theorem pyIsSpace_ascii {c : Char} (h : pyIsSpace c = true) :
    c.toNat < 128 ∧ c.toNat ≠ 92 := by
  simp [pyIsSpace] at h
  omega

/-- C7 (corrected): for a *non-empty* whitespace-only `--input-string`
the run takes the input-string path, produces zero annotations, prints
exactly the confirmation message, and exits 0.  (An *empty* value is
falsy in Python, so `main` falls through to the other input sources —
see `c7_cex` — which is why the claim's empty-string case fails.) -/
theorem c7_whitespace_input (a : MainArgs) (s : String)
    (hin : a.input_string = some s) (hne : s ≠ "")
    (hws : ∀ c ∈ s.toList, pyIsSpace c = true) :
    mainRun a = Except.ok ⟨0, ["✅ No typos found."], [("<stdin>", [])]⟩ := by
  have htr : truthyStr a.input_string = true := by
    rw [hin]
    simp [truthyStr, hne]
  have hdec : pyUnicodeEscape s = Except.ok s :=
    pyUnicodeEscape_plain s (fun c hc => pyIsSpace_ascii (hws c hc))
  have hlstrip : pyLStrip s = "" := by
    rw [pyLStrip, lstripChars_all_space s.toList hws]
    rfl
  have hclass : inputStringChanges s = [("<stdin>", numberFrom 1 (pySplitlines s))] := by
    rw [inputStringChanges, hlstrip, if_neg (by decide)]
  have hlines : ∀ line ∈ pySplitlines s, ∀ c ∈ line.toList, pyIsSpace c = true := by
    intro line hline
    rw [pySplitlines] at hline
    split at hline
    · cases hline
    · exact splitlinesAux_space_lines [] s.toList (by simp) hws line hline
  have hrun : run_spell_checker (numberFrom 1 (pySplitlines s))
      (a.checker (joinWith "\n" ((numberFrom 1 (pySplitlines s)).map (fun p => p.2))))
      (dictWords a) = [] := by
    apply run_spell_checker_no_tokens
    intro p hp
    exact pySplit_all_space p.2 (hlines p.2 (numberFrom_snd_mem _ 1 p hp))
  rw [mainRun, if_pos htr, hin]
  show (match pyUnicodeEscape s with
    | Except.error e => Except.error e
    | Except.ok decoded => Except.ok (checkPhase a (inputStringChanges decoded))) =
    Except.ok ⟨0, ["✅ No typos found."], [("<stdin>", [])]⟩
  rw [hdec]
  simp only [hclass]
  rw [checkPhase]
  simp [hrun]

/-- C7 counterexample: with `--input-string ""` the value is falsy, so
`main` does not take the input-string path at all; with the git
collaborators of `cexArgs7` the run produces an annotation and exits 1
instead of printing the confirmation and exiting 0. -/
theorem c7_cex :
    cexArgs7.input_string = some "" ∧
    mainRun cexArgs7 = Except.ok
      ⟨1, ["::error file=f.md,line=1::Possible typo: 'badwerd' in line: badwerd"],
        [("f.md", [(1, "badwerd", "badwerd")])]⟩ := by
  constructor
  · rfl
  · rfl

theorem c7_whitespace_input_inst :
    mainRun { cexArgs7 with input_string := some " " } =
      Except.ok ⟨0, ["✅ No typos found."], [("<stdin>", [])]⟩ :=
  c7_whitespace_input { cexArgs7 with input_string := some " " } " " rfl
    (by decide) (by decide)

/-! ## C10: unicode-escape decoding and input classification -/

/-- C10: a non-empty `--input-string` is first decoded as
unicode-escape and the decoded text is then classified: if it starts
with `diff` after left-trimming it is parsed as a unified diff, else it
becomes `<stdin>` lines numbered from 1 in input order.  The second
conjunct exhibits the decoding at work: a literal backslash-n between
two plain ASCII words becomes a real newline before line numbering, so
the two words land on `<stdin>` lines 1 and 2. -/
theorem c10_unicode_escape_classification :
    (∀ (a : MainArgs) (s d : String), a.input_string = some s → s ≠ "" →
      pyUnicodeEscape s = Except.ok d →
      mainRun a = Except.ok (checkPhase a (inputStringChanges d)) ∧
      (pyStartswith (pyLStrip d) "diff" = true →
        inputStringChanges d = parse_diff_content d) ∧
      (pyStartswith (pyLStrip d) "diff" = false →
        inputStringChanges d = [("<stdin>", numberFrom 1 (pySplitlines d))])) ∧
    (∀ (a : MainArgs) (t1 t2 : String), a.input_string = some (t1 ++ "\\n" ++ t2) →
      (∀ c ∈ t1.toList, c.toNat < 128 ∧ c.toNat ≠ 92 ∧ isLineBoundary c = false) →
      (∀ c ∈ t2.toList, c.toNat < 128 ∧ c.toNat ≠ 92 ∧ isLineBoundary c = false) →
      t2 ≠ "" →
      pyStartswith (pyLStrip (t1 ++ "\n" ++ t2)) "diff" = false →
      mainRun a = Except.ok (checkPhase a [("<stdin>", [(1, t1), (2, t2)])])) := by
  have hmain : ∀ (a : MainArgs) (s d : String), a.input_string = some s → s ≠ "" →
      pyUnicodeEscape s = Except.ok d →
      mainRun a = Except.ok (checkPhase a (inputStringChanges d)) := by
    intro a s d hin hne hdec
    have htr : truthyStr a.input_string = true := by
      rw [hin]
      simp [truthyStr, hne]
    rw [mainRun, if_pos htr, hin]
    show (match pyUnicodeEscape s with
      | Except.error e => Except.error e
      | Except.ok decoded => Except.ok (checkPhase a (inputStringChanges decoded))) =
      Except.ok (checkPhase a (inputStringChanges d))
    rw [hdec]
  constructor
  · intro a s d hin hne hdec
    refine ⟨hmain a s d hin hne hdec, ?_, ?_⟩
    · intro hd
      rw [inputStringChanges, if_pos hd]
    · intro hd
      rw [inputStringChanges, if_neg (by simp [hd])]
  · intro a t1 t2 hin h1 h2 hne2 hnodiff
    have htl : (t1 ++ "\\n" ++ t2).toList = t1.toList ++ '\\' :: 'n' :: t2.toList := by
      rw [toList_append, toList_append]
      simp
    have hsne : (t1 ++ "\\n" ++ t2) ≠ "" := by
      intro hemp
      have := (toList_eq_nil _).mpr hemp
      rw [htl] at this
      exact absurd (List.append_eq_nil.mp this).2 (by simp)
    have hdec := pyUnicodeEscape_bsn t1 t2
      (fun c hc => ⟨(h1 c hc).1, (h1 c hc).2.1⟩)
      (fun c hc => ⟨(h2 c hc).1, (h2 c hc).2.1⟩)
    have hstep := hmain a (t1 ++ "\\n" ++ t2) (t1 ++ "\n" ++ t2) hin hsne hdec
    rw [hstep]
    have ht2l : t2.toList ≠ [] := fun hh => hne2 ((toList_eq_nil t2).mp hh)
    have htl2 : (t1 ++ "\n" ++ t2).toList = t1.toList ++ '\n' :: t2.toList := by
      rw [toList_append, toList_append]
      simp
    have hsplit : pySplitlines (t1 ++ "\n" ++ t2) = [t1, t2] := by
      have hwne : (t1 ++ "\n" ++ t2).toList ≠ [] := by
        rw [htl2]
        intro hh
        exact absurd (List.append_eq_nil.mp hh).2 (by simp)
      rw [pySplitlines_ne_empty _ hwne, htl2]
      rw [splitlinesAux_break t1.toList [] t2.toList
        (fun c hc => (h1 c hc).2.2) ht2l]
      rw [splitlinesAux_no_boundary t2.toList [] (fun c hc => (h2 c hc).2.2)]
      simp [asString_data]
    have hclass : inputStringChanges (t1 ++ "\n" ++ t2) =
        [("<stdin>", [(1, t1), (2, t2)])] := by
      rw [inputStringChanges, if_neg (by simp [hnodiff]), hsplit]
      rfl
    rw [hclass]

theorem c10_unicode_escape_classification_inst :
    mainRun instArgs10 =
      Except.ok (checkPhase instArgs10 [("<stdin>", [(1, "hello"), (2, "world")])]) :=
  c10_unicode_escape_classification.2 instArgs10 "hello" "world" rfl
    (by decide) (by decide) (by decide) (by decide)

/-! ## C6: exit codes -/

theorem totalFindings_cons (p : String × List (Int × String × String))
    (rest : List (String × List (Int × String × String))) :
    totalFindings (p :: rest) = p.2.length + totalFindings rest := by
  simp [totalFindings]

theorem any_ne_nil_iff_totalFindings (l : List (String × List (Int × String × String))) :
    (l.any (fun fc => fc.2 ≠ [])) = true ↔ totalFindings l ≠ 0 := by
  induction l with
  | nil => simp [totalFindings]
  | cons p rest ih =>
    rw [List.any_cons, totalFindings_cons, Bool.or_eq_true, decide_eq_true_eq]
    constructor
    · rintro (h | h)
      · have : p.2.length ≠ 0 := fun hh => h (List.length_eq_zero.mp hh)
        omega
      · have := ih.mp h
        omega
    · intro h
      by_cases hp : p.2 = []
      · right
        apply ih.mpr
        rw [hp] at h
        simpa using h
      · exact Or.inl hp

theorem checkPhase_exit_spec (a : MainArgs)
    (fcs : List (String × List (Int × String))) :
    (checkPhase a fcs).exitCode ≤ 1 ∧
    ((checkPhase a fcs).exitCode = 0 ↔ totalFindings (checkPhase a fcs).findings = 0) ∧
    ((checkPhase a fcs).exitCode = 1 ↔ totalFindings (checkPhase a fcs).findings ≠ 0) := by
  rw [checkPhase]
  split
  next h =>
    have := (any_ne_nil_iff_totalFindings _).mp h
    refine ⟨by norm_num, ?_, ?_⟩
    · simp only []
      constructor
      · intro hh
        cases hh
      · intro hh
        exact absurd hh this
    · simpa using this
  next h =>
    have : totalFindings (fcs.map fun fc =>
        (fc.1, run_spell_checker fc.2
          (a.checker (joinWith "\n" (fc.2.map fun p => p.2))) (dictWords a))) = 0 := by
      by_contra hc
      exact h ((any_ne_nil_iff_totalFindings _).mpr hc)
    refine ⟨by norm_num, ?_, ?_⟩
    · simpa using this
    · constructor
      · intro hh
        cases hh
      · intro hh
        exact absurd this hh

theorem gitRun_exit_spec (a : MainArgs) :
    ∃ o, gitRun a = Except.ok o ∧ o.exitCode ≤ 1 ∧
      (o.exitCode = 0 ↔ totalFindings o.findings = 0) ∧
      (o.exitCode = 1 ↔ totalFindings o.findings ≠ 0) := by
  rw [gitRun]
  by_cases hg : a.gitFiles = []
  · rw [if_pos hg]
    refine ⟨⟨0, ["✅ No files to check."], []⟩, rfl, by norm_num, ?_, ?_⟩
    · simp [totalFindings]
    · simp [totalFindings]
  · rw [if_neg hg]
    exact ⟨_, rfl, checkPhase_exit_spec a _⟩

/-- C6 (corrected): under a valid configuration — at most one input
source given, and a decodable `--input-string` when that source is
used — the run never raises, its exit status is 0 exactly when no
annotation was produced (including the no-files-to-check case), and 1
exactly when at least one annotation was produced; a `--diff-file`
naming a *non-empty* missing path exits 1 with no annotations.  An
empty `--diff-file` value is falsy in `elif args.diff_file:`, so the
run falls through to the git path even though the empty path names no
existing file, and can then exit 0 (`c6_cex`). -/
theorem c6_exit_codes (a : MainArgs)
    (hnb : ¬(truthyStr a.input_string = true ∧ a.diff_file.isSome = true))
    (hdec : truthyStr a.input_string = true →
      ∃ d, pyUnicodeEscape (a.input_string.getD "") = Except.ok d) :
    (∀ p, p ≠ "" → a.diff_file = some (p, none) →
      mainRun a = Except.ok ⟨1, ["❌ Diff file not found: " ++ p], []⟩) ∧
    (diffFileMissing a = false →
      ∃ o, mainRun a = Except.ok o ∧ o.exitCode ≤ 1 ∧
        (o.exitCode = 0 ↔ totalFindings o.findings = 0) ∧
        (o.exitCode = 1 ↔ totalFindings o.findings ≠ 0)) := by
  constructor
  · intro p hp hdf
    have htf : truthyStr a.input_string = false := by
      by_contra hc
      have htr : truthyStr a.input_string = true := by
        revert hc
        cases truthyStr a.input_string <;> simp
      exact hnb ⟨htr, by rw [hdf]; rfl⟩
    rw [mainRun, if_neg (by simp [htf]), hdf]
    simp only [if_pos hp]
  · intro hnm
    by_cases htr : truthyStr a.input_string = true
    · obtain ⟨d, hd⟩ := hdec htr
      rw [mainRun, if_pos htr]
      refine ⟨checkPhase a (inputStringChanges d), ?_, checkPhase_exit_spec a _⟩
      show (match pyUnicodeEscape (a.input_string.getD "") with
        | Except.error e => Except.error e
        | Except.ok decoded => Except.ok (checkPhase a (inputStringChanges decoded))) =
        Except.ok (checkPhase a (inputStringChanges d))
      rw [hd]
    · rw [mainRun, if_neg htr]
      rcases hdf : a.diff_file with _ | ⟨p, c⟩
      · exact gitRun_exit_spec a
      · by_cases hp : p = ""
        · subst hp
          simp only [ne_eq, not_true_eq_false, if_false]
          exact gitRun_exit_spec a
        · simp only [if_pos hp]
          rcases c with _ | txt
          · rw [diffFileMissing, hdf] at hnm
            simp [hp] at hnm
          · exact ⟨_, rfl, checkPhase_exit_spec a _⟩

/-- C6 counterexample: with `--diff-file ""` the named path does not
exist, so the claim demands exit status 1; but the empty string is
falsy in `elif args.diff_file:`, the run of `cexArgs6` falls through
to the git enumeration, prints the no-files-to-check message and exits
0 with zero annotations. -/
theorem c6_cex :
    cexArgs6.diff_file = some ("", none) ∧
    mainRun cexArgs6 = Except.ok ⟨0, ["✅ No files to check."], []⟩ :=
  ⟨rfl, rfl⟩

theorem c6_exit_codes_inst :
    ∃ o, mainRun instArgs6 = Except.ok o ∧ o.exitCode ≤ 1 ∧
      (o.exitCode = 0 ↔ totalFindings o.findings = 0) ∧
      (o.exitCode = 1 ↔ totalFindings o.findings ≠ 0) :=
  (c6_exit_codes instArgs6 (by decide) (fun h => absurd h (by decide))).2 (by decide)

end GitSpellCheck
